import Mathlib

/-!
Verification of the line-finding library (lineFinding.py, postProcessing.py).

The Python sources are shallowly embedded here.  Conventions of the embedding:

* An image together with its externally supplied classification predicate
  `isLineColor` is modelled as a boolean grid: `Image.pix y x` is the value of
  `isLineColor(image[y, x])` for the in-range part of the plane (row `y`,
  column `x`, matching the numpy `image[y, x]` order).  The predicate is a pure
  function fixed for the whole run, so fusing it with the grid loses nothing.
* Python exceptions are modelled with `Except String`.  A numpy read or write
  with a row/column at or beyond the shape is the error `"IndexError"`.
  numpy would accept small negative indices by wrap-around; every matrix
  access in these sources sits behind a bounds check that rejects negative
  indices before the access is attempted, so the wrap-around case is
  unreachable and is modelled as the same error.
* Python `while` loops are translated as recursions on an explicit counter
  that carries the loop bound (run finders: the counter equals the distance to
  the image edge, so exhausting it coincides with the loop condition turning
  false), or, for the octant extension loops, split into an explicit
  one-iteration step function (`stepSeventhOctant`, `stepFourthOctant`,
  `stepFifthAndSixthOctant`) iterated with ample fuel; an accepted extension
  is `some` of the next state, loop exit is `none`.  In the Python loops the
  exit path recomputes the run length from the stale `x_end`/`y_end` of the
  previous iteration, which always yields 0 and therefore always fails the
  `[length, 2*length]` window; the step functions short-circuit that dead
  code into `none`.
-/

namespace LineFinding

instance {ε α : Type} [DecidableEq ε] [DecidableEq α] : DecidableEq (Except ε α) := fun a b =>
  match a, b with
  | .error e1, .error e2 =>
      if h : e1 = e2 then .isTrue (congrArg Except.error h)
      else .isFalse (fun c => h (Except.error.inj c))
  | .ok a1, .ok a2 =>
      if h : a1 = a2 then .isTrue (congrArg Except.ok h)
      else .isFalse (fun c => h (Except.ok.inj c))
  | .error _, .ok _ => .isFalse (fun c => Except.noConfusion c)
  | .ok _, .error _ => .isFalse (fun c => Except.noConfusion c)

/-- A rasterized image fused with its pixel-classification predicate:
`pix y x` says whether `image[y, x]` is line-colored.  `height` is
`image.shape[0]`, `width` is `image.shape[1]`. -/
structure Image where
  height : Nat
  width : Nat
  pix : Int → Int → Bool

/-- numpy read `image[y, x]` composed with the predicate.  Errors outside the
shape (negative indices never reach an access in this code, see the header
comment). -/
def Image.getPix (img : Image) (y x : Int) : Except String Bool :=
  if 0 ≤ y ∧ y < (img.height : Int) ∧ 0 ≤ x ∧ x < (img.width : Int) then
    .ok (img.pix y x)
  else
    .error "IndexError"

/-- Python `LineSegment` of lineFinding.py: integer endpoints plus the `_vertical`
flag (Python initialises it with `None`, which is falsy, so it is a `Bool`
here). -/
structure LineSegment where
  x_start : Int
  y_start : Int
  x_end : Int
  y_end : Int
  vertical : Bool
  deriving DecidableEq, Repr

/-- Python `LineSegment.setVertical`. -/
def LineSegment.setVertical (l : LineSegment) : LineSegment :=
  ⟨l.x_start, l.y_start, l.x_end, l.y_end, true⟩

/-- Python `LineSegment.isPoint`: raw deltas, not the inclusive lengths. -/
def LineSegment.isPoint (l : LineSegment) : Bool :=
  l.x_end - l.x_start == 0 && l.y_end - l.y_start == 0

/-- Python `LineSegment.getXLength`: `int(math.fabs(x_end - x_start) + 1)`. -/
def LineSegment.getXLength (l : LineSegment) : Int :=
  ((l.x_end - l.x_start).natAbs : Int) + 1

/-- Python `LineSegment.getYLength`: `int(math.fabs(y_end - y_start) + 1)`. -/
def LineSegment.getYLength (l : LineSegment) : Int :=
  ((l.y_end - l.y_start).natAbs : Int) + 1

/-- Python `LineSegment.setEndCoordinate`. -/
def LineSegment.setEndCoordinate (l : LineSegment) (x y : Int) : LineSegment :=
  ⟨l.x_start, l.y_start, x, y, l.vertical⟩

/-- Python `LineSegment.setStartCoordinate`. -/
def LineSegment.setStartCoordinate (l : LineSegment) (x y : Int) : LineSegment :=
  ⟨x, y, l.x_end, l.y_end, l.vertical⟩

/-- Python `LineSegment.isValidIndice`: the strict bounds check used by the direction
probes (`self` is unused in the source as well). -/
def LineSegment.isValidIndice (_l : LineSegment) (img : Image) (x y : Int) : Bool :=
  if y < 0 ∨ y ≥ (img.height : Int) then false
  else if x < 0 ∨ x ≥ (img.width : Int) then false
  else true

/-- Python `LineSegment.isNextPixelBelow`: probes `(x_end, y_end + 1)`. -/
def LineSegment.isNextPixelBelow (l : LineSegment) (img : Image) : Except String Bool := do
  let temp_x := l.x_end
  let temp_y := l.y_end + 1
  if !(l.isValidIndice img temp_x temp_y) then return false
  img.getPix temp_y temp_x

/-- Python `LineSegment.isNextPixelRightDown`: probes `(x_end + 1, y_end + 1)`. -/
def LineSegment.isNextPixelRightDown (l : LineSegment) (img : Image) : Except String Bool := do
  let temp_x := l.x_end + 1
  let temp_y := l.y_end + 1
  if !(l.isValidIndice img temp_x temp_y) then return false
  img.getPix temp_y temp_x

/-- Python `LineSegment.isNextPixelLeftDown`: probes `(x_start - 1, y_start + 1)`, or
`(x_end - 1, y_end + 1)` when the `vertical` flag is set. -/
def LineSegment.isNextPixelLeftDown (l : LineSegment) (img : Image) : Except String Bool := do
  let temp_x := if l.vertical then l.x_end - 1 else l.x_start - 1
  let temp_y := if l.vertical then l.y_end + 1 else l.y_start + 1
  if !(l.isValidIndice img temp_x temp_y) then return false
  img.getPix temp_y temp_x

/-- The `while l < image.shape[0] and isLineColor(image[l, x])` loop of
`findVerticalSegment`, with the loop bound `image.shape[0] - l` as a
structural counter: when the counter is `0` the condition `l < shape[0]` is
false anyway, so this computes the loop for every input. -/
def findVerticalGo (img : Image) (x : Int) : Nat → Int → Int
  | 0, l => l
  | n + 1, l => if l < (img.height : Int) ∧ img.pix l x then findVerticalGo img x n (l + 1) else l

/-- The vertical run loop of `findVerticalSegment`; returns the final `l`. -/
def findVerticalLoop (img : Image) (x l : Int) : Int :=
  findVerticalGo img x ((img.height : Int) - l).toNat l

/-- Python `findVerticalSegment`. -/
def findVerticalSegment (img : Image) (x y : Int) : Int × Int :=
  (x, findVerticalLoop img x y - 1)

/-- The `while l >= 0 and isLineColor(image[y, l])` loop of
`findHorizontalNegativeSegment`, with `l + 1` as a structural counter (when it
is `0` the condition `l >= 0` is false anyway). -/
def findHorizontalNegativeGo (img : Image) (y : Int) : Nat → Int → Int
  | 0, l => l
  | n + 1, l => if 0 ≤ l ∧ img.pix y l then findHorizontalNegativeGo img y n (l - 1) else l

/-- The leftward run loop of `findHorizontalNegativeSegment`. -/
def findHorizontalNegativeLoop (img : Image) (y l : Int) : Int :=
  findHorizontalNegativeGo img y (l + 1).toNat l

/-- Python `findHorizontalNegativeSegment`. -/
def findHorizontalNegativeSegment (img : Image) (x y : Int) : Int × Int :=
  (findHorizontalNegativeLoop img y x + 1, y)

/-- The `while l < image.shape[1] and isLineColor(image[y, l])` loop of
`findHorizontalPositiveSegment`, with `image.shape[1] - l` as a structural
counter (when it is `0` the condition `l < shape[1]` is false anyway). -/
def findHorizontalPositiveGo (img : Image) (y : Int) : Nat → Int → Int
  | 0, l => l
  | n + 1, l => if l < (img.width : Int) ∧ img.pix y l then findHorizontalPositiveGo img y n (l + 1) else l

/-- The rightward run loop of `findHorizontalPositiveSegment`. -/
def findHorizontalPositiveLoop (img : Image) (y l : Int) : Int :=
  findHorizontalPositiveGo img y ((img.width : Int) - l).toNat l

/-- Python `findHorizontalPositiveSegment`. -/
def findHorizontalPositiveSegment (img : Image) (x y : Int) : Int × Int :=
  (findHorizontalPositiveLoop img y x - 1, y)

/-- Python `VisitedMatrix`: the visited grid.  A cell of the numpy matrix holds `1`
exactly when it has been written, so the matrix is represented by the list of
written cells `(y, x)` (most recent first); a cell reads as visited iff it is
in the list. -/
structure VisitedMatrix where
  height : Nat
  width : Nat
  marked : List (Int × Int)
  deriving DecidableEq, Repr

/-- Python `VisitedMatrix.__init__`: `numpy.zeros(image.shape)`. -/
def VisitedMatrix.ofImage (img : Image) : VisitedMatrix :=
  ⟨img.height, img.width, []⟩

/-- Python `VisitedMatrix.isValidIndice`.  The source compares with `>` rather than
`>=`, so `y = height` and `x = width` are (wrongly) accepted here. -/
def VisitedMatrix.isValidIndice (m : VisitedMatrix) (x y : Int) : Bool :=
  if y < 0 ∨ y > (m.height : Int) then false
  else if x < 0 ∨ x > (m.width : Int) then false
  else true

/-- numpy read `_visited_matrix[y, x]` (see the header comment on negative
indices, which never reach an access). -/
def VisitedMatrix.read (m : VisitedMatrix) (y x : Int) : Except String Bool :=
  if 0 ≤ y ∧ y < (m.height : Int) ∧ 0 ≤ x ∧ x < (m.width : Int) then
    .ok (m.marked.contains (y, x))
  else
    .error "IndexError"

/-- numpy write `_visited_matrix[y, x] = 1`. -/
def VisitedMatrix.write (m : VisitedMatrix) (y x : Int) : Except String VisitedMatrix :=
  if 0 ≤ y ∧ y < (m.height : Int) ∧ 0 ≤ x ∧ x < (m.width : Int) then
    .ok ⟨m.height, m.width, (y, x) :: m.marked⟩
  else
    .error "IndexError"

/-- Python `VisitedMatrix.isVisited`. -/
def VisitedMatrix.isVisited (m : VisitedMatrix) (x y : Int) : Except String Bool :=
  if !(m.isValidIndice x y) then
    .error ("Invalid indices x=" ++ toString x ++ ", y=" ++ toString y)
  else
    m.read y x

/-- Python `VisitedMatrix.setVisited`. -/
def VisitedMatrix.setVisited (m : VisitedMatrix) (x y : Int) : Except String VisitedMatrix :=
  if !(m.isValidIndice x y) then
    .error ("Invalid indices x=" ++ toString x ++ ", y=" ++ toString y)
  else
    m.write y x

/-- The `for i in range(x1, x2 + 1)` body of `setRowVisited`, running `n`
iterations from column `x`. -/
def VisitedMatrix.setRowLoop : VisitedMatrix → Int → Int → Nat → Except String VisitedMatrix
  | m, _, _, 0 => .ok m
  | m, y, x, n + 1 => do
      let m1 ← m.setVisited x y
      VisitedMatrix.setRowLoop m1 y (x + 1) n

/-- Python `VisitedMatrix.setRowVisited` (the source swaps `x1`/`x2` when needed,
rendered here with `min`/`max`). -/
def VisitedMatrix.setRowVisited (m : VisitedMatrix) (y x1 x2 : Int) : Except String VisitedMatrix :=
  if !(m.isValidIndice x1 y && m.isValidIndice x2 y) then .error "Invalid indices"
  else
    let a := min x1 x2
    let b := max x1 x2
    m.setRowLoop y a (b + 1 - a).toNat

/-- The `for i in range(y1, y2 + 1)` body of `setColumnVisited`, running `n`
iterations from row `y`. -/
def VisitedMatrix.setColumnLoop : VisitedMatrix → Int → Int → Nat → Except String VisitedMatrix
  | m, _, _, 0 => .ok m
  | m, x, y, n + 1 => do
      let m1 ← m.setVisited x y
      VisitedMatrix.setColumnLoop m1 x (y + 1) n

/-- Python `VisitedMatrix.setColumnVisited` (the source swaps `y1`/`y2` when needed,
rendered here with `min`/`max`). -/
def VisitedMatrix.setColumnVisited (m : VisitedMatrix) (x y1 y2 : Int) : Except String VisitedMatrix :=
  if !(m.isValidIndice x y1 && m.isValidIndice x y2) then .error "Invalid indices"
  else
    let a := min y1 y2
    let b := max y1 y2
    m.setColumnLoop x a (b + 1 - a).toNat

/-- Iterate a loop-body step: `some` is an accepted iteration carrying the next
state, `none` ends the loop. -/
def iterateSteps {σ : Type} (step : σ → Except String (Option σ)) : Nat → σ → Except String σ
  | 0, s => .ok s
  | n + 1, s => do
      match ← step s with
      | some s2 => iterateSteps step n s2
      | none => .ok s

/-- One iteration of the `while moreSeg` loop of `handleSeventhOctant`, for a
family whose reference run length is `length`. -/
def stepSeventhOctant (img : Image) (length : Int) (seg : LineSegment) (vis : VisitedMatrix) :
    Except String (Option (LineSegment × VisitedMatrix)) := do
  let max_length := 2 * length
  let x_temp := seg.x_end + 1
  let y_temp := seg.y_end + 1
  let probe ← seg.isNextPixelRightDown img
  if probe then
    let (x_end2, y_end2) := findHorizontalPositiveSegment img x_temp y_temp
    let lengthX := x_end2 - x_temp + 1
    if length ≤ lengthX ∧ lengthX ≤ max_length then
      let seg2 := seg.setEndCoordinate x_end2 y_end2
      let vis2 ← vis.setRowVisited y_temp x_temp x_end2
      return some (seg2, vis2)
    else
      return none
  else
    return none

/-- Python `handleSeventhOctant`: the reference length is `getXLength` of the segment
at entry; the loop advances `y_end` by one per accepted run, so `height + 1`
fuel can never be exhausted before the probe leaves the image. -/
def handleSeventhOctant (img : Image) (seg : LineSegment) (vis : VisitedMatrix) :
    Except String (LineSegment × VisitedMatrix) :=
  let length := seg.getXLength
  iterateSteps (fun s => stepSeventhOctant img length s.1 s.2) (img.height + 1) (seg, vis)

/-- One iteration of the `while moreSeg` loop of `handleFourthOctant`. -/
def stepFourthOctant (img : Image) (length : Int) (seg : LineSegment) (vis : VisitedMatrix) :
    Except String (Option (LineSegment × VisitedMatrix)) := do
  let max_length := 2 * length
  let x_temp := seg.x_start - 1
  let y_temp := seg.y_start + 1
  let probe ← seg.isNextPixelLeftDown img
  if probe then
    let (x_end2, y_end2) := findHorizontalNegativeSegment img x_temp y_temp
    let lengthX := x_temp - x_end2 + 1
    if length ≤ lengthX ∧ lengthX ≤ max_length then
      let seg2 := seg.setStartCoordinate x_end2 y_end2
      let vis2 ← vis.setRowVisited y_temp x_temp x_end2
      return some (seg2, vis2)
    else
      return none
  else
    return none

/-- Python `handleFourthOctant`. -/
def handleFourthOctant (img : Image) (seg : LineSegment) (vis : VisitedMatrix) :
    Except String (LineSegment × VisitedMatrix) :=
  let length := seg.getXLength
  iterateSteps (fun s => stepFourthOctant img length s.1 s.2) (img.height + 1) (seg, vis)

/-- Python `handleFourthAndSeventhOctant`. -/
def handleFourthAndSeventhOctant (img : Image) (seg0 : LineSegment) (vis0 : VisitedMatrix) :
    Except String (LineSegment × VisitedMatrix) := do
  let (x_end2, y_end2) := findHorizontalPositiveSegment img seg0.x_start seg0.y_start
  let seg := seg0.setEndCoordinate x_end2 y_end2
  let vis ← vis0.setRowVisited y_end2 seg.x_start x_end2
  let rd ← seg.isNextPixelRightDown img
  if rd then
    handleSeventhOctant img seg vis
  else
    let ld ← seg.isNextPixelLeftDown img
    if ld then
      handleFourthOctant img seg vis
    else
      return (seg, vis)

/-- One iteration of the `while moreSeg` loop of `handleFifthAndSixthOctant`.
The state carries the Python loop variables `(lineSegment, visited_matrix,
x_temp)`.  The left-down probe is tested first; only when it fails is the
right-down probe consulted (the tie-break of the steep family). -/
def stepFifthAndSixthOctant (img : Image) (length : Int) (seg : LineSegment)
    (vis : VisitedMatrix) (x_temp : Int) :
    Except String (Option (LineSegment × VisitedMatrix × Int)) := do
  let max_length := 2 * length
  let y_temp := seg.y_end + 1
  let dir ← (do
    let ld ← seg.isNextPixelLeftDown img
    if ld then
      pure (some (x_temp - 1))
    else
      let rd ← seg.isNextPixelRightDown img
      if rd then pure (some (x_temp + 1)) else pure none)
  match dir with
  | none => return none
  | some x_temp2 =>
    let (x_end2, y_end2) := findVerticalSegment img x_temp2 y_temp
    let lengthY := y_end2 - y_temp + 1
    if length ≤ lengthY ∧ lengthY ≤ max_length then
      let seg2 := seg.setEndCoordinate x_end2 y_end2
      let vis2 ← vis.setColumnVisited x_temp2 y_temp y_end2
      return some (seg2, vis2, x_temp2)
    else
      return none

/-- Python `handleFifthAndSixthOctant`. -/
def handleFifthAndSixthOctant (img : Image) (seg0 : LineSegment) (vis0 : VisitedMatrix) :
    Except String (LineSegment × VisitedMatrix) := do
  let (x_end2, y_end2) := findVerticalSegment img seg0.x_start seg0.y_start
  let seg := seg0.setEndCoordinate x_end2 y_end2
  let vis ← vis0.setColumnVisited seg.x_start seg.y_start y_end2
  let x_temp := seg.x_start
  let length := seg.getYLength
  let (seg2, vis2, _) ←
    iterateSteps (fun s => stepFifthAndSixthOctant img length s.1 s.2.1 s.2.2) (img.height + 1)
      (seg, vis, x_temp)
  return (seg2, vis2)

/-- The per-pixel body of the scan driver `_findLines`: seed an unvisited
line-colored pixel `(j, i)` and run the matching octant family. -/
def scanPixel (img : Image) (st : List LineSegment × VisitedMatrix) (i j : Int) :
    Except String (List LineSegment × VisitedMatrix) := do
  let (lines, vis) := st
  if img.pix i j then
    let v ← vis.isVisited j i
    if !v then
      let seg := LineSegment.mk j i j i false
      let below ← seg.isNextPixelBelow img
      if below then
        let (seg2, vis2) ← handleFifthAndSixthOctant img seg.setVertical vis
        return (lines ++ [seg2], vis2)
      else
        let (seg2, vis2) ← handleFourthAndSeventhOctant img seg vis
        return (lines ++ [seg2], vis2)
    else
      return st
  else
    return st

/-- Python `_findLines`: row-major scan (`i` over rows, `j` over columns), returning
the traced segments in discovery order. -/
def findLines (img : Image) : Except String (List LineSegment) := do
  let init : List LineSegment × VisitedMatrix := ([], VisitedMatrix.ofImage img)
  let (lines, _) ← (List.range img.height).foldlM (fun acc i =>
      (List.range img.width).foldlM (fun acc2 j => scanPixel img acc2 (i : Int) (j : Int)) acc)
    init
  return lines

/-! ## postProcessing.py

A `Structure` is its backing list of segments (`_lines`); the list of
structures returned by `groupAdjacentLines` is a `List (List LineSegment)`.
Python compares `LineSegment` objects by identity (`LineSegment` defines no
`__eq__`); the traced segments handed to post-processing are pairwise distinct
objects, so identity comparison coincides with value equality on inputs
without duplicate values, which is how membership and removal are modelled
here. -/

/-- Python `range(a, b)` as a list of integers. -/
def intRange (a b : Int) : List Int :=
  (List.range (b - a).toNat).map (fun k => a + (k : Int))

/-- Python `getAdjacentCoordinates`: the delta-neighbourhood square around `(x, y)`,
inclusive. -/
def getAdjacentCoordinates (x y : Int) (delta : Int) : List (Int × Int) :=
  (intRange (x - delta) (x + delta + 1)).foldr
    (fun i acc => ((intRange (y - delta) (y + delta + 1)).map (fun j => (i, j))) ++ acc) []

/-- Python `isAdjacentPoint`. -/
def isAdjacentPoint (x_1 y_1 x_2 y_2 : Int) (delta : Int) : Bool :=
  (x_2, y_2) ∈ getAdjacentCoordinates x_1 y_1 delta

/-- Python `isAdjacentToEnd`. -/
def isAdjacentToEnd (line_1 line_2 : LineSegment) (delta : Int) : Bool :=
  isAdjacentPoint line_1.x_end line_1.y_end line_2.x_start line_2.y_start delta ||
    isAdjacentPoint line_1.x_end line_1.y_end line_2.x_end line_2.y_end delta

/-- Python `isAdjacentToStart`. -/
def isAdjacentToStart (line_1 line_2 : LineSegment) (delta : Int) : Bool :=
  isAdjacentPoint line_1.x_start line_1.y_start line_2.x_start line_2.y_start delta ||
    isAdjacentPoint line_1.x_start line_1.y_start line_2.x_end line_2.y_end delta

/-- Python `isAdjacent`. -/
def isAdjacent (line_1 line_2 : LineSegment) (delta : Int) : Bool :=
  isAdjacentToStart line_1 line_2 delta || isAdjacentToEnd line_1 line_2 delta

/-- Python `collectAdjacentLines`: depth-first absorption of not-yet-grouped adjacent
lines.  The pair carried along is `(structure, visitedLines)`.  The Python
recursion has no explicit bound; each nested call is made for a line that was
just added to `visitedLines`, so its depth is bounded by the number of lines
and the callers pass `lines.length` as fuel, which is never exhausted. -/
def collectAdjacentLines :
    Nat → Int → LineSegment → List LineSegment →
      List LineSegment × List LineSegment → List LineSegment × List LineSegment
  | 0, _, _, _, acc => acc
  | fuel + 1, delta, currentLine, lines, acc =>
      lines.foldl
        (fun acc2 line =>
          if line ∈ acc2.1 ∨ line ∈ acc2.2 then acc2
          else if isAdjacent currentLine line delta then
            collectAdjacentLines fuel delta line lines (acc2.1 ++ [line], acc2.2 ++ [line])
          else acc2)
        acc

/-- Python `groupAdjacentLines`: connected components of the adjacency graph, in
discovery order. -/
def groupAdjacentLines (lines : List LineSegment) (delta : Int) : List (List LineSegment) :=
  (lines.foldl
    (fun (acc : List (List LineSegment) × List LineSegment) line_1 =>
      if line_1 ∈ acc.2 then acc
      else
        let sv := collectAdjacentLines lines.length delta line_1 lines ([line_1], acc.2 ++ [line_1])
        (acc.1 ++ [sv.1], sv.2))
    ([], [])).1

/-- Python 2.7 `round(x, 5)`: round to 5 decimal digits, halves away from
zero.  The float representation error of the source is not modelled; the
rounding itself is exact. -/
noncomputable def pyRound5 (x : ℝ) : ℝ :=
  if x < 0 then -((⌊(-x) * 100000 + 1 / 2⌋ : Int) : ℝ) / 100000
  else ((⌊x * 100000 + 1 / 2⌋ : Int) : ℝ) / 100000

/-- Python `computeAngle`: degrees between the `(start - end)` direction vectors via
the arccosine of the (rounded) normalized dot product; exactly `90` when the
dot product is exactly `0`.  `math.degrees(r) = r * 180 / pi`. -/
noncomputable def computeAngle (line_1 line_2 : LineSegment) : ℝ :=
  let a_1 := line_1.x_start - line_1.x_end
  let a_2 := line_1.y_start - line_1.y_end
  let b_1 := line_2.x_start - line_2.x_end
  let b_2 := line_2.y_start - line_2.y_end
  let ab := a_1 * b_1 + a_2 * b_2
  if ab = 0 then 90
  else
    let a_r := Real.sqrt ((a_1 ^ 2 + a_2 ^ 2 : Int) : ℝ)
    let b_r := Real.sqrt ((b_1 ^ 2 + b_2 ^ 2 : Int) : ℝ)
    let r := ((ab : Int) : ℝ) / (a_r * b_r)
    Real.arccos (pyRound5 r) * 180 / Real.pi

/-- Python `haveEqualSlope`: `-1 * angle_epsilon <= angle <= angle_epsilon`, a
`ValueError` when `angle_epsilon` is absent. -/
noncomputable def haveEqualSlope (line_1 line_2 : LineSegment) (angle_epsilon : Option ℝ) :
    Except String Bool :=
  match angle_epsilon with
  | some eps =>
      let angle := computeAngle line_1 line_2
      .ok (decide ((-1) * eps ≤ angle ∧ angle ≤ eps))
  | none => .error "angle_epsilon not set"

/-- Python `combineLines`.  The Python function mutates one operand in place and
returns it (or returns `None`); the result here is
`(which, line_1 after the call, line_2 after the call)` where `which` is
`none` for the Python `None` value, `some false` when the returned object is
`line_1`, and `some true` when it is `line_2`.  Which object is returned
matters because the caller removes `line_2` from its list by object identity
after overwriting slot `i` with the result. -/
noncomputable def combineLines (line_1 line_2 : LineSegment) (angle_epsilon : Option ℝ)
    (delta : Int) : Except String (Option Bool × LineSegment × LineSegment) := do
  let gate ←
    if !line_1.isPoint && !line_2.isPoint then do
      let s ← haveEqualSlope line_1 line_2 angle_epsilon
      pure (!s)
    else pure false
  if gate then return (none, line_1, line_2)
  if line_1.isPoint then
    if isAdjacentToStart line_2 line_1 delta then
      return (some false, line_1.setEndCoordinate line_2.x_end line_2.y_end, line_2)
    else if isAdjacentToEnd line_2 line_1 delta then
      return (some true, line_1, line_2.setEndCoordinate line_1.x_end line_1.y_end)
    else
      return (none, line_1, line_2)
  else if line_2.isPoint then
    if isAdjacentToStart line_1 line_2 delta then
      return (some true, line_1, line_2.setEndCoordinate line_1.x_end line_1.y_end)
    else if isAdjacentToEnd line_1 line_2 delta then
      return (some false, line_1.setEndCoordinate line_2.x_end line_2.y_end, line_2)
    else
      return (none, line_1, line_2)
  else if isAdjacentToStart line_1 line_2 delta then
    return (some true, line_1, line_2.setEndCoordinate line_1.x_end line_1.y_end)
  else if isAdjacentToEnd line_1 line_2 delta then
    return (some false, line_1.setEndCoordinate line_2.x_end line_2.y_end, line_2)
  else
    return (none, line_1, line_2)

/-- Python `combineLinesWithEqualSlope_Rec` together with its inner `for j` loop,
flattened into one recursion on `(i, j)`.  On a merge, slot `i` is overwritten
with the returned object and `line_2` is removed by identity: when the
returned object is `line_1` that erases position `j`; when it is `line_2`
(which then occupies both slot `i` and slot `j`) the removal finds slot `i`
first, so the merged value survives at position `j` and position `i` is
dropped. -/
noncomputable def combineLoop (angle_epsilon : Option ℝ) (delta : Int) :
    Nat → Nat → List LineSegment → Except String (List LineSegment)
  | i, j, st =>
    if hi : i < st.length then
      if hj : j < st.length then
        match combineLines st[i] st[j] angle_epsilon delta with
        | .error e => .error e
        | .ok (none, _, _) => combineLoop angle_epsilon delta i (j + 1) st
        | .ok (some tag, l1, l2) =>
            let st2 := if tag then (st.set j l2).eraseIdx i else (st.set i l1).eraseIdx j
            combineLoop angle_epsilon delta i (i + 1) st2
      else combineLoop angle_epsilon delta (i + 1) (i + 2) st
    else .ok st
termination_by i j st => (st.length - i, st.length - j)
decreasing_by
  all_goals simp_wf
  · right
    omega
  · left
    have ha : ((st.set i l1).eraseIdx j).length + 1 = (st.set i l1).length :=
      List.length_eraseIdx_add_one (by simpa using hj)
    have hb : ((st.set j l2).eraseIdx i).length + 1 = (st.set j l2).length :=
      List.length_eraseIdx_add_one (by simpa using hi)
    simp only [List.length_set] at ha hb
    rcases tag with _ | _ <;> simp only [Bool.false_eq_true, if_true, if_false] <;> omega
  · left
    omega

/-- Python `combineLinesWithEqualSlope_Rec`, entered at scan position `i` (the inner
`for j` starts at `i + 1`). -/
noncomputable def combineLinesWithEqualSlope_Rec (i : Nat) (st : List LineSegment)
    (angle_epsilon : Option ℝ) (delta : Int) : Except String (List LineSegment) :=
  combineLoop angle_epsilon delta i (i + 1) st

/-- Python `combineLinesWithEqualSlope`: merge every structure, in order. -/
noncomputable def combineLinesWithEqualSlope (structures : List (List LineSegment))
    (angle_epsilon : Option ℝ) (delta : Int) : Except String (List (List LineSegment)) :=
  match structures with
  | [] => .ok []
  | st :: rest => do
      let st2 ← combineLinesWithEqualSlope_Rec 0 st angle_epsilon delta
      let rest2 ← combineLinesWithEqualSlope rest angle_epsilon delta
      pure (st2 :: rest2)

/-! ## Theorems -/

/-- The strict bounds check of `LineSegment.isValidIndice`, as bounds. -/
theorem LineSegment.isValidIndice_iff (l : LineSegment) (img : Image) (x y : Int) :
    l.isValidIndice img x y = true ↔
      0 ≤ x ∧ x < (img.width : Int) ∧ 0 ≤ y ∧ y < (img.height : Int) := by
  unfold LineSegment.isValidIndice
  split_ifs with h1 h2 <;> simp <;> omega

/-- Evaluation of the below-probe: a guarded in-bounds read. -/
theorem isNextPixelBelow_eq (l : LineSegment) (img : Image) :
    l.isNextPixelBelow img =
      .ok (l.isValidIndice img l.x_end (l.y_end + 1) && img.pix (l.y_end + 1) l.x_end) := by
  unfold LineSegment.isNextPixelBelow
  by_cases hv : l.isValidIndice img l.x_end (l.y_end + 1)
  · have hb := (LineSegment.isValidIndice_iff l img l.x_end (l.y_end + 1)).mp hv
    simp [hv, Image.getPix, hb.1, hb.2.1, hb.2.2.1, hb.2.2.2]
  · simp [hv, pure, Except.pure]

/-- Evaluation of the right-down probe: a guarded in-bounds read. -/
theorem isNextPixelRightDown_eq (l : LineSegment) (img : Image) :
    l.isNextPixelRightDown img =
      .ok (l.isValidIndice img (l.x_end + 1) (l.y_end + 1) &&
        img.pix (l.y_end + 1) (l.x_end + 1)) := by
  unfold LineSegment.isNextPixelRightDown
  by_cases hv : l.isValidIndice img (l.x_end + 1) (l.y_end + 1)
  · have hb := (LineSegment.isValidIndice_iff l img (l.x_end + 1) (l.y_end + 1)).mp hv
    simp [hv, Image.getPix, hb.1, hb.2.1, hb.2.2.1, hb.2.2.2]
  · simp [hv, pure, Except.pure]

/-- Evaluation of the left-down probe: a guarded in-bounds read at the
vertical-flag-dependent coordinates. -/
theorem isNextPixelLeftDown_eq (l : LineSegment) (img : Image) :
    l.isNextPixelLeftDown img =
      .ok (l.isValidIndice img (if l.vertical then l.x_end - 1 else l.x_start - 1)
            (if l.vertical then l.y_end + 1 else l.y_start + 1) &&
          img.pix (if l.vertical then l.y_end + 1 else l.y_start + 1)
            (if l.vertical then l.x_end - 1 else l.x_start - 1)) := by
  unfold LineSegment.isNextPixelLeftDown
  set px := if l.vertical then l.x_end - 1 else l.x_start - 1 with hpx
  set py := if l.vertical then l.y_end + 1 else l.y_start + 1 with hpy
  by_cases hv : l.isValidIndice img px py
  · have hb := (LineSegment.isValidIndice_iff l img px py).mp hv
    simp [hv, Image.getPix, hb.1, hb.2.1, hb.2.2.1, hb.2.2.2]
  · simp [hv, pure, Except.pure]

/-- The strict bounds check fails on every out-of-bounds coordinate pair. -/
theorem isValidIndice_false (l : LineSegment) (img : Image) (x y : Int)
    (h : x < 0 ∨ (img.width : Int) ≤ x ∨ y < 0 ∨ (img.height : Int) ≤ y) :
    l.isValidIndice img x y = false := by
  unfold LineSegment.isValidIndice
  split_ifs with h1 h2 <;> simp_all <;> omega

/-- C9: each direction probe (`isNextPixelBelow` at `(x_end, y_end+1)`,
`isNextPixelRightDown` at `(x_end+1, y_end+1)`, `isNextPixelLeftDown` at
`(x_start-1, y_start+1)`, or `(x_end-1, y_end+1)` when the vertical flag is
set) returns `False` — and in particular does not raise — whenever its probed
pixel lies outside the grid bounds. -/
theorem probes_return_false_out_of_bounds (img : Image) (l : LineSegment) :
    (l.x_end < 0 ∨ (img.width : Int) ≤ l.x_end ∨ l.y_end + 1 < 0 ∨
        (img.height : Int) ≤ l.y_end + 1 →
      l.isNextPixelBelow img = .ok false) ∧
    (l.x_end + 1 < 0 ∨ (img.width : Int) ≤ l.x_end + 1 ∨ l.y_end + 1 < 0 ∨
        (img.height : Int) ≤ l.y_end + 1 →
      l.isNextPixelRightDown img = .ok false) ∧
    (((if l.vertical then l.x_end - 1 else l.x_start - 1) < 0 ∨
        (img.width : Int) ≤ (if l.vertical then l.x_end - 1 else l.x_start - 1) ∨
        (if l.vertical then l.y_end + 1 else l.y_start + 1) < 0 ∨
        (img.height : Int) ≤ (if l.vertical then l.y_end + 1 else l.y_start + 1)) →
      l.isNextPixelLeftDown img = .ok false) := by
  refine ⟨fun h => ?_, fun h => ?_, fun h => ?_⟩
  · rw [isNextPixelBelow_eq, isValidIndice_false l img _ _ h]
    simp
  · rw [isNextPixelRightDown_eq, isValidIndice_false l img _ _ h]
    simp
  · rw [isNextPixelLeftDown_eq, isValidIndice_false l img _ _ h]
    simp

/-- Witness for C9 on a 2×2 image: a segment whose three probed pixels all
fall outside the grid. -/
theorem probes_return_false_out_of_bounds_witness :
    (LineSegment.mk 0 1 0 1 false).isNextPixelBelow (Image.mk 2 2 (fun _ _ => true)) = .ok false ∧
    (LineSegment.mk 0 1 1 1 false).isNextPixelRightDown (Image.mk 2 2 (fun _ _ => true)) =
      .ok false ∧
    (LineSegment.mk 0 0 0 0 false).isNextPixelLeftDown (Image.mk 2 2 (fun _ _ => true)) =
      .ok false :=
  ⟨(probes_return_false_out_of_bounds (Image.mk 2 2 (fun _ _ => true))
      (LineSegment.mk 0 1 0 1 false)).1 (by decide),
    (probes_return_false_out_of_bounds (Image.mk 2 2 (fun _ _ => true))
      (LineSegment.mk 0 1 1 1 false)).2.1 (by decide),
    (probes_return_false_out_of_bounds (Image.mk 2 2 (fun _ _ => true))
      (LineSegment.mk 0 0 0 0 false)).2.2 (by decide)⟩

/-- C5: for every coordinate pair outside the W×H grid, `isVisited` fails with
one of the two invalid-index errors (the explicit `ValueError` of
`isValidIndice`, or the numpy `IndexError` on the admitted boundary row/column
`y = H` / `x = W`) — it never returns a value. -/
theorem isVisited_out_of_bounds_fails (m : VisitedMatrix) (x y : Int)
    (h : x < 0 ∨ (m.width : Int) ≤ x ∨ y < 0 ∨ (m.height : Int) ≤ y) :
    m.isVisited x y = .error ("Invalid indices x=" ++ toString x ++ ", y=" ++ toString y) ∨
      m.isVisited x y = .error "IndexError" := by
  unfold VisitedMatrix.isVisited VisitedMatrix.isValidIndice VisitedMatrix.read
  split_ifs with h1 h2 h3 <;> simp_all <;> omega

/-- Witness for C5: on a 2×2 visited matrix, the strictly-outside query
`(x, y) = (0, 3)` raises the `ValueError`, and the boundary query
`(x, y) = (0, 2)` (admitted by the weak check) raises the `IndexError`. -/
theorem isVisited_out_of_bounds_fails_witness :
    ((VisitedMatrix.mk 2 2 []).isVisited 0 3 = .error "Invalid indices x=0, y=3" ∨
      (VisitedMatrix.mk 2 2 []).isVisited 0 3 = .error "IndexError") ∧
    ((VisitedMatrix.mk 2 2 []).isVisited 0 2 = .error "Invalid indices x=0, y=2" ∨
      (VisitedMatrix.mk 2 2 []).isVisited 0 2 = .error "IndexError") :=
  ⟨isVisited_out_of_bounds_fails (VisitedMatrix.mk 2 2 []) 0 3 (by decide),
    isVisited_out_of_bounds_fails (VisitedMatrix.mk 2 2 []) 0 2 (by decide)⟩

/-- An accepted `handleSeventhOctant` iteration moved `x_end` by the length of the new run, which passed the `[length, 2*length]` window. -/
theorem stepSeventhOctant_window (img : Image) (L : Int) (seg : LineSegment)
    (vis : VisitedMatrix) (seg2 : LineSegment) (vis2 : VisitedMatrix)
    (h : stepSeventhOctant img L seg vis = .ok (some (seg2, vis2))) :
    L ≤ seg2.x_end - seg.x_end ∧ seg2.x_end - seg.x_end ≤ 2 * L := by
  unfold stepSeventhOctant at h
  rw [isNextPixelRightDown_eq] at h
  simp only [bind, Except.bind, findHorizontalPositiveSegment] at h
  by_cases hp : (seg.isValidIndice img (seg.x_end + 1) (seg.y_end + 1) &&
      img.pix (seg.y_end + 1) (seg.x_end + 1)) = true
  · simp only [hp, if_true] at h
    split at h
    · rcases hsr : vis.setRowVisited (seg.y_end + 1) (seg.x_end + 1)
          (findHorizontalPositiveLoop img (seg.y_end + 1) (seg.x_end + 1) - 1) with e | v
      all_goals rw [hsr] at h
      · simp [pure, Except.pure] at h
      · simp only [pure, Except.pure, Except.ok.injEq, Option.some.injEq, Prod.mk.injEq] at h
        rcases h with ⟨hseg, -⟩
        rw [← hseg]
        simp only [LineSegment.setEndCoordinate]
        omega
    · simp [pure, Except.pure] at h
  · simp [hp, pure, Except.pure] at h

/-- A right-down probe failure or an out-of-window run ends the
`handleSeventhOctant` loop. -/
theorem stepSeventhOctant_stops (img : Image) (L : Int) (seg : LineSegment)
    (vis : VisitedMatrix)
    (h : seg.isNextPixelRightDown img = .ok false ∨
      ¬(L ≤ (findHorizontalPositiveSegment img (seg.x_end + 1) (seg.y_end + 1)).1 -
          (seg.x_end + 1) + 1 ∧
        (findHorizontalPositiveSegment img (seg.x_end + 1) (seg.y_end + 1)).1 -
          (seg.x_end + 1) + 1 ≤ 2 * L)) :
    stepSeventhOctant img L seg vis = .ok none := by
  unfold stepSeventhOctant
  rw [isNextPixelRightDown_eq]
  simp only [bind, Except.bind, findHorizontalPositiveSegment] at h ⊢
  by_cases hp : (seg.isValidIndice img (seg.x_end + 1) (seg.y_end + 1) &&
      img.pix (seg.y_end + 1) (seg.x_end + 1)) = true
  · simp only [hp, if_true]
    rcases h with h | h
    · rw [isNextPixelRightDown_eq, hp] at h
      simp at h
    · rw [if_neg h]
      simp [pure, Except.pure]
  · simp [hp, pure, Except.pure]

/-- An accepted `handleFourthOctant` iteration moved `x_start` by the new
run, which passed the `[length, 2*length]` window. -/
theorem stepFourthOctant_window (img : Image) (L : Int) (seg : LineSegment)
    (vis : VisitedMatrix) (seg2 : LineSegment) (vis2 : VisitedMatrix)
    (h : stepFourthOctant img L seg vis = .ok (some (seg2, vis2))) :
    L ≤ seg.x_start - seg2.x_start ∧ seg.x_start - seg2.x_start ≤ 2 * L := by
  unfold stepFourthOctant at h
  rw [isNextPixelLeftDown_eq] at h
  simp only [bind, Except.bind, findHorizontalNegativeSegment] at h
  by_cases hp : (seg.isValidIndice img (if seg.vertical then seg.x_end - 1 else seg.x_start - 1)
        (if seg.vertical then seg.y_end + 1 else seg.y_start + 1) &&
      img.pix (if seg.vertical then seg.y_end + 1 else seg.y_start + 1)
        (if seg.vertical then seg.x_end - 1 else seg.x_start - 1)) = true
  · simp only [hp, if_true] at h
    split at h
    · rcases hsr : vis.setRowVisited (seg.y_start + 1) (seg.x_start - 1)
          (findHorizontalNegativeLoop img (seg.y_start + 1) (seg.x_start - 1) + 1) with e | v
      all_goals rw [hsr] at h
      · simp [pure, Except.pure] at h
      · simp only [pure, Except.pure, Except.ok.injEq, Option.some.injEq, Prod.mk.injEq] at h
        rcases h with ⟨hseg, -⟩
        rw [← hseg]
        simp only [LineSegment.setStartCoordinate]
        omega
    · simp [pure, Except.pure] at h
  · simp [hp, pure, Except.pure] at h

/-- An accepted `handleFifthAndSixthOctant` iteration moved `y_end` by the new
run, which passed the `[length, 2*length]` window. -/
theorem stepFifthAndSixthOctant_window (img : Image) (L : Int) (seg : LineSegment)
    (vis : VisitedMatrix) (xt : Int) (seg2 : LineSegment) (vis2 : VisitedMatrix) (xt2 : Int)
    (h : stepFifthAndSixthOctant img L seg vis xt = .ok (some (seg2, vis2, xt2))) :
    L ≤ seg2.y_end - seg.y_end ∧ seg2.y_end - seg.y_end ≤ 2 * L := by
  unfold stepFifthAndSixthOctant at h
  rw [isNextPixelLeftDown_eq] at h
  simp only [bind, Except.bind, findVerticalSegment] at h
  by_cases hl : (seg.isValidIndice img (if seg.vertical then seg.x_end - 1 else seg.x_start - 1)
        (if seg.vertical then seg.y_end + 1 else seg.y_start + 1) &&
      img.pix (if seg.vertical then seg.y_end + 1 else seg.y_start + 1)
        (if seg.vertical then seg.x_end - 1 else seg.x_start - 1)) = true
  · simp only [hl, if_true, pure, Except.pure] at h
    split at h
    · rcases hsr : vis.setColumnVisited (xt - 1) (seg.y_end + 1)
          (findVerticalLoop img (xt - 1) (seg.y_end + 1) - 1) with e | v
      all_goals rw [hsr] at h
      · simp [pure, Except.pure] at h
      · simp only [pure, Except.pure, Except.ok.injEq, Option.some.injEq, Prod.mk.injEq] at h
        rcases h with ⟨hseg, -⟩
        rw [← hseg]
        simp only [LineSegment.setEndCoordinate]
        omega
    · simp [pure, Except.pure] at h
  · rw [isNextPixelRightDown_eq] at h
    simp only [hl, Bool.false_eq_true, if_false, pure, Except.pure] at h
    by_cases hr : (seg.isValidIndice img (seg.x_end + 1) (seg.y_end + 1) &&
        img.pix (seg.y_end + 1) (seg.x_end + 1)) = true
    · simp only [hr, if_true] at h
      split at h
      · rcases hsr : vis.setColumnVisited (xt + 1) (seg.y_end + 1)
            (findVerticalLoop img (xt + 1) (seg.y_end + 1) - 1) with e | v
        all_goals rw [hsr] at h
        · simp [pure, Except.pure] at h
        · simp only [pure, Except.pure, Except.ok.injEq, Option.some.injEq, Prod.mk.injEq] at h
          rcases h with ⟨hseg, -⟩
          rw [← hseg]
          simp only [LineSegment.setEndCoordinate]
          omega
      · simp [pure, Except.pure] at h
    · simp [hr, pure, Except.pure] at h

/-- When both diagonal probes fail, the `handleFifthAndSixthOctant` loop
ends. -/
theorem stepFifthAndSixthOctant_stops (img : Image) (L : Int) (seg : LineSegment)
    (vis : VisitedMatrix) (xt : Int)
    (hl : seg.isNextPixelLeftDown img = .ok false)
    (hr : seg.isNextPixelRightDown img = .ok false) :
    stepFifthAndSixthOctant img L seg vis xt = .ok none := by
  unfold stepFifthAndSixthOctant
  rw [isNextPixelLeftDown_eq] at hl ⊢
  rw [isNextPixelRightDown_eq] at hr ⊢
  simp only [Except.ok.injEq] at hl hr
  simp [bind, Except.bind, hl, hr, pure, Except.pure]

/-- C4: in every octant handler, an extension run is accepted only if the new
inclusive run length (the distance the accepting step moves the endpoint of
the segment) lies in `[L, 2L]` for the reference length `L` of the family; a
failing diagonal probe or (for the shallow handlers) an out-of-window run
yields `none`, terminating the extension loop.  The final two equations pin
the reference length down: the shallow handlers iterate their step with
`L = getXLength` of the segment at handler entry, i.e. the length of the
initial run of the family (`handleFifthAndSixthOctant` likewise uses
`getYLength` after its initial vertical run, by definition). -/
theorem octant_extension_window (img : Image) (L : Int) (seg : LineSegment)
    (vis : VisitedMatrix) (xt : Int) :
    (∀ seg2 vis2, stepSeventhOctant img L seg vis = .ok (some (seg2, vis2)) →
      L ≤ seg2.x_end - seg.x_end ∧ seg2.x_end - seg.x_end ≤ 2 * L) ∧
    (∀ seg2 vis2, stepFourthOctant img L seg vis = .ok (some (seg2, vis2)) →
      L ≤ seg.x_start - seg2.x_start ∧ seg.x_start - seg2.x_start ≤ 2 * L) ∧
    (∀ seg2 vis2 xt2,
      stepFifthAndSixthOctant img L seg vis xt = .ok (some (seg2, vis2, xt2)) →
      L ≤ seg2.y_end - seg.y_end ∧ seg2.y_end - seg.y_end ≤ 2 * L) ∧
    (¬(L ≤ (findHorizontalPositiveSegment img (seg.x_end + 1) (seg.y_end + 1)).1 -
          (seg.x_end + 1) + 1 ∧
        (findHorizontalPositiveSegment img (seg.x_end + 1) (seg.y_end + 1)).1 -
          (seg.x_end + 1) + 1 ≤ 2 * L) →
      stepSeventhOctant img L seg vis = .ok none) ∧
    (seg.isNextPixelLeftDown img = .ok false → seg.isNextPixelRightDown img = .ok false →
      stepFifthAndSixthOctant img L seg vis xt = .ok none) ∧
    handleSeventhOctant img seg vis =
      iterateSteps (fun s => stepSeventhOctant img seg.getXLength s.1 s.2) (img.height + 1)
        (seg, vis) ∧
    handleFourthOctant img seg vis =
      iterateSteps (fun s => stepFourthOctant img seg.getXLength s.1 s.2) (img.height + 1)
        (seg, vis) :=
  ⟨fun seg2 vis2 h => stepSeventhOctant_window img L seg vis seg2 vis2 h,
    fun seg2 vis2 h => stepFourthOctant_window img L seg vis seg2 vis2 h,
    fun seg2 vis2 xt2 h => stepFifthAndSixthOctant_window img L seg vis xt seg2 vis2 xt2 h,
    fun hw => stepSeventhOctant_stops img L seg vis (Or.inr hw),
    fun hl hr => stepFifthAndSixthOctant_stops img L seg vis xt hl hr,
    rfl, rfl⟩

/-- A 2×5 image carrying a 2-pixel run and its right-down continuation. -/
def wImg7 : Image :=
  ⟨2, 5, fun y x => y == 0 && (x == 0 || x == 1) || y == 1 && (x == 2 || x == 3)⟩

/-- A 2×5 image carrying a 2-pixel run and its left-down continuation. -/
def wImg4 : Image :=
  ⟨2, 5, fun y x => y == 0 && (x == 3 || x == 4) || y == 1 && (x == 1 || x == 2)⟩

/-- A 4×4 image with a fork: both diagonals below a 2-pixel vertical run. -/
def wImgFork : Image :=
  ⟨4, 4, fun y x => (y == 0 || y == 1) && x == 2 || (y == 2 || y == 3) && (x == 1 || x == 3)⟩

/-- An all-background 2×5 image. -/
def wImgBg : Image := ⟨2, 5, fun _ _ => false⟩

/-- Witness for C4: an accepted right-down run (window `[2, 4]`, run length
2), an accepted left-down run, an accepted steep run, a rejected window
stopping the shallow loop, and a double probe failure stopping the steep
loop. -/
theorem octant_extension_window_witness :
    ((2 : Int) ≤ (LineSegment.mk 0 0 3 1 false).x_end - (LineSegment.mk 0 0 1 0 false).x_end ∧
      (LineSegment.mk 0 0 3 1 false).x_end - (LineSegment.mk 0 0 1 0 false).x_end ≤ 2 * 2) ∧
    ((2 : Int) ≤ (LineSegment.mk 3 0 4 0 false).x_start -
        (LineSegment.mk 1 1 4 0 false).x_start ∧
      (LineSegment.mk 3 0 4 0 false).x_start - (LineSegment.mk 1 1 4 0 false).x_start ≤ 2 * 2) ∧
    ((2 : Int) ≤ (LineSegment.mk 2 0 1 3 true).y_end - (LineSegment.mk 2 0 2 1 true).y_end ∧
      (LineSegment.mk 2 0 1 3 true).y_end - (LineSegment.mk 2 0 2 1 true).y_end ≤ 2 * 2) ∧
    stepSeventhOctant wImgBg 2 (LineSegment.mk 0 0 1 0 false) (VisitedMatrix.ofImage wImgBg) =
      .ok none ∧
    stepFifthAndSixthOctant wImgBg 1 (LineSegment.mk 0 0 0 0 true)
      (VisitedMatrix.ofImage wImgBg) 0 = .ok none :=
  ⟨(octant_extension_window wImg7 2 (LineSegment.mk 0 0 1 0 false)
      (VisitedMatrix.ofImage wImg7) 0).1 (LineSegment.mk 0 0 3 1 false)
      (VisitedMatrix.mk 2 5 [(1, 3), (1, 2)]) (by decide),
    (octant_extension_window wImg4 2 (LineSegment.mk 3 0 4 0 false)
      (VisitedMatrix.ofImage wImg4) 0).2.1 (LineSegment.mk 1 1 4 0 false)
      (VisitedMatrix.mk 2 5 [(1, 2), (1, 1)]) (by decide),
    (octant_extension_window wImgFork 2 (LineSegment.mk 2 0 2 1 true)
      (VisitedMatrix.ofImage wImgFork) 2).2.2.1 (LineSegment.mk 2 0 1 3 true)
      (VisitedMatrix.mk 4 4 [(3, 1), (2, 1)]) 1 (by decide),
    (octant_extension_window wImgBg 2 (LineSegment.mk 0 0 1 0 false)
      (VisitedMatrix.ofImage wImgBg) 0).2.2.2.1 (by decide),
    (octant_extension_window wImgBg 1 (LineSegment.mk 0 0 0 0 true)
      (VisitedMatrix.ofImage wImgBg) 0).2.2.2.2.1 (by decide) (by decide)⟩

/-- C7: in the steep-family extension loop, on a step where both the
left-down and the right-down diagonal probes succeed, the left-down direction
is taken: the tracing column of any accepted continuation is `x_temp - 1`,
never `x_temp + 1`. -/
theorem steep_left_precedence (img : Image) (L : Int) (seg : LineSegment)
    (vis : VisitedMatrix) (xt : Int) (seg2 : LineSegment) (vis2 : VisitedMatrix) (xt2 : Int)
    (hL : seg.isNextPixelLeftDown img = .ok true)
    (_hR : seg.isNextPixelRightDown img = .ok true)
    (hacc : stepFifthAndSixthOctant img L seg vis xt = .ok (some (seg2, vis2, xt2))) :
    xt2 = xt - 1 ∧ seg2.x_end = xt - 1 := by
  unfold stepFifthAndSixthOctant at hacc
  rw [isNextPixelLeftDown_eq] at hL hacc
  simp only [Except.ok.injEq] at hL
  simp only [hL, bind, Except.bind, if_true, pure, Except.pure, findVerticalSegment] at hacc
  split at hacc
  · rcases hsr : vis.setColumnVisited (xt - 1) (seg.y_end + 1)
        (findVerticalLoop img (xt - 1) (seg.y_end + 1) - 1) with e | v
    all_goals rw [hsr] at hacc
    · simp [pure, Except.pure] at hacc
    · simp only [pure, Except.pure, Except.ok.injEq, Option.some.injEq, Prod.mk.injEq] at hacc
      rcases hacc with ⟨hseg, -, hxt⟩
      rw [← hseg, ← hxt]
      simp [LineSegment.setEndCoordinate]
  · simp [pure, Except.pure] at hacc

/-- Witness for C7: a fork where both diagonals of a 2-pixel vertical run are
line-colored; the accepted step moves the column from 2 to 1. -/
theorem steep_left_precedence_witness :
    (1 : Int) = 2 - 1 ∧ (LineSegment.mk 2 0 1 3 true).x_end = 2 - 1 :=
  steep_left_precedence wImgFork
    2 (LineSegment.mk 2 0 2 1 true) (VisitedMatrix.mk 4 4 []) 2
    (LineSegment.mk 2 0 1 3 true) (VisitedMatrix.mk 4 4 [(3, 1), (2, 1)]) 1
    (by decide) (by decide) (by decide)

/-- Loop invariant of the vertical run finder: starting the scan at row `l`
with the row budget `(height - l).toNat`, the result `m` satisfies `l ≤ m`,
`m ≤ max l height`, every row in `[l, m)` is line-colored, and if `m` is still
inside the image then row `m` is not line-colored. -/
theorem findVerticalGo_spec (img : Image) (x : Int) :
    ∀ (n : Nat) (l : Int), n = ((img.height : Int) - l).toNat →
      l ≤ findVerticalGo img x n l ∧
        findVerticalGo img x n l ≤ max l (img.height : Int) ∧
        (∀ k, l ≤ k → k < findVerticalGo img x n l → img.pix k x = true) ∧
        (findVerticalGo img x n l < (img.height : Int) →
          img.pix (findVerticalGo img x n l) x = false) := by
  intro n
  induction n with
  | zero =>
    intro l hn
    have hl : (img.height : Int) ≤ l := by omega
    refine ⟨le_refl l, le_max_left _ _, fun k hk1 hk2 => ?_, fun hm => ?_⟩
    · simp only [findVerticalGo] at hk2
      omega
    · simp only [findVerticalGo] at hm
      omega
  | succ n ih =>
    intro l hn
    by_cases hc : l < (img.height : Int) ∧ img.pix l x = true
    · have hgo : findVerticalGo img x (n + 1) l = findVerticalGo img x n (l + 1) := by
        simp [findVerticalGo, hc.1, hc.2]
      have hrec := ih (l + 1) (by omega)
      rw [hgo]
      refine ⟨by omega, by omega, fun k hk1 hk2 => ?_, hrec.2.2.2⟩
      rcases eq_or_lt_of_le hk1 with hk | hk
      · rw [← hk]
        exact hc.2
      · exact hrec.2.2.1 k (by omega) hk2
    · have hgo : findVerticalGo img x (n + 1) l = l := by
        simp only [findVerticalGo, if_neg hc]
      rw [hgo]
      refine ⟨le_refl l, le_max_left _ _, fun k hk1 hk2 => by omega, fun hm => ?_⟩
      have hnp : ¬(img.pix l x = true) := fun hpx => hc ⟨hm, hpx⟩
      simpa using hnp

/-- C8 (amended): for every in-bounds seed `(x, y)` whose own pixel satisfies
the predicate, `findVerticalSegment` returns `(x, y2)` where `y2` is the last
row of the contiguous downward line-colored run from `(x, y)` that stays in
bounds, and `y2` is never smaller than the seed row. -/
theorem findVerticalSegment_spec (img : Image) (x y : Int)
    (hx1 : 0 ≤ x) (hx2 : x < (img.width : Int))
    (hy1 : 0 ≤ y) (hy2 : y < (img.height : Int))
    (hp : img.pix y x = true) :
    (findVerticalSegment img x y).1 = x ∧
      y ≤ (findVerticalSegment img x y).2 ∧
      (findVerticalSegment img x y).2 < (img.height : Int) ∧
      (∀ k, y ≤ k → k ≤ (findVerticalSegment img x y).2 → img.pix k x = true) ∧
      ((findVerticalSegment img x y).2 + 1 < (img.height : Int) →
        img.pix ((findVerticalSegment img x y).2 + 1) x = false) := by
  have hspec := findVerticalGo_spec img x (((img.height : Int) - y).toNat) y rfl
  have hstep : y + 1 ≤ findVerticalGo img x (((img.height : Int) - y).toNat) y := by
    rcases eq_or_lt_of_le hspec.1 with hstop | hgt
    · exfalso
      have := hspec.2.2.2 (by omega)
      rw [← hstop] at this
      rw [hp] at this
      exact Bool.true_eq_false.mp this
    · omega
  have hmax : max y (img.height : Int) = (img.height : Int) := by omega
  rw [hmax] at hspec
  unfold findVerticalSegment findVerticalLoop
  refine ⟨rfl, by simp only; omega, by simp only; omega, fun k hk1 hk2 => ?_, fun hlt => ?_⟩
  · exact hspec.2.2.1 k hk1 (by simp only at hk2; omega)
  · simp only at hlt ⊢
    have h2 : findVerticalGo img x (((img.height : Int) - y).toNat) y - 1 + 1 =
        findVerticalGo img x (((img.height : Int) - y).toNat) y := by omega
    rw [h2]
    exact hspec.2.2.2 (by omega)

/-- Witness for the amended C8 theorem: a 1×2 column whose two pixels are
line-colored; the run from the seed `(0, 0)` ends at row 1. -/
theorem findVerticalSegment_spec_witness :
    (findVerticalSegment (Image.mk 2 1 (fun _ _ => true)) 0 0).1 = 0 ∧
      (0 : Int) ≤ (findVerticalSegment (Image.mk 2 1 (fun _ _ => true)) 0 0).2 ∧
      (findVerticalSegment (Image.mk 2 1 (fun _ _ => true)) 0 0).2 <
        ((Image.mk 2 1 (fun _ _ => true)).height : Int) ∧
      (∀ k, (0 : Int) ≤ k →
        k ≤ (findVerticalSegment (Image.mk 2 1 (fun _ _ => true)) 0 0).2 →
        (Image.mk 2 1 (fun _ _ => true)).pix k 0 = true) ∧
      ((findVerticalSegment (Image.mk 2 1 (fun _ _ => true)) 0 0).2 + 1 <
          ((Image.mk 2 1 (fun _ _ => true)).height : Int) →
        (Image.mk 2 1 (fun _ _ => true)).pix
          ((findVerticalSegment (Image.mk 2 1 (fun _ _ => true)) 0 0).2 + 1) 0 = false) :=
  findVerticalSegment_spec (Image.mk 2 1 (fun _ _ => true)) 0 0
    (by decide) (by decide) (by decide) (by decide) (by decide)

/-- Counterexample to C8 as stated: on a 1×1 all-background image the seed
`(0, 0)` is in bounds, yet `findVerticalSegment` returns row `-1`, which is
smaller than the seed row `0` (the claimed minimum). -/
theorem findVerticalSegment_counterexample :
    (0 : Int) < ((Image.mk 1 1 (fun _ _ => false)).height : Int) ∧
      (0 : Int) < ((Image.mk 1 1 (fun _ _ => false)).width : Int) ∧
      (findVerticalSegment (Image.mk 1 1 (fun _ _ => false)) 0 0).2 < 0 := by
  decide

/-- Folding a step that appends the same fresh block to both components
(structure and visited list) appends one combined fresh block. -/
theorem foldl_grow (lines : List LineSegment)
    (f : List LineSegment × List LineSegment → LineSegment → List LineSegment × List LineSegment) :
    ∀ (pending : List LineSegment),
      (∀ (st vis : List LineSegment) (line : LineSegment), line ∈ pending → st ⊆ vis →
        ∃ d, f (st, vis) line = (st ++ d, vis ++ d) ∧ (∀ x ∈ d, x ∈ lines) ∧
          (∀ x ∈ d, x ∉ vis) ∧ d.Nodup) →
      ∀ (st vis : List LineSegment), st ⊆ vis →
        ∃ d, pending.foldl f (st, vis) = (st ++ d, vis ++ d) ∧ (∀ x ∈ d, x ∈ lines) ∧
          (∀ x ∈ d, x ∉ vis) ∧ d.Nodup := by
  intro pending
  induction pending with
  | nil =>
    intro _ st vis _
    exact ⟨[], by simp, by simp, by simp, List.nodup_nil⟩
  | cons l rest ih =>
    intro hf st vis hsv
    obtain ⟨d1, hd1, hd1lines, hd1fresh, hd1nd⟩ :=
      hf st vis l (List.mem_cons_self l rest) hsv
    have hsv1 : st ++ d1 ⊆ vis ++ d1 := fun x hx => by
      rcases List.mem_append.mp hx with hx | hx
      · exact List.mem_append.mpr (Or.inl (hsv hx))
      · exact List.mem_append.mpr (Or.inr hx)
    obtain ⟨d2, hd2, hd2lines, hd2fresh, hd2nd⟩ :=
      ih (fun st2 vis2 line hmem => hf st2 vis2 line (List.mem_cons_of_mem l hmem))
        (st ++ d1) (vis ++ d1) hsv1
    refine ⟨d1 ++ d2, ?_, ?_, ?_, ?_⟩
    · rw [List.foldl_cons, hd1, hd2, List.append_assoc, List.append_assoc]
    · intro x hx
      rcases List.mem_append.mp hx with hx | hx
      · exact hd1lines x hx
      · exact hd2lines x hx
    · intro x hx
      rcases List.mem_append.mp hx with hx | hx
      · exact hd1fresh x hx
      · exact fun hxv => hd2fresh x hx (List.mem_append.mpr (Or.inl hxv))
    · rw [List.nodup_append]
      refine ⟨hd1nd, hd2nd, fun x hx1 hx2 => ?_⟩
      exact hd2fresh x hx2 (List.mem_append.mpr (Or.inr hx1))

/-- Python `collectAdjacentLines` appends the same block of fresh lines, all drawn
from `lines`, to the structure and to the visited list. -/
theorem collectAdjacentLines_spec (delta : Int) (lines : List LineSegment) :
    ∀ (fuel : Nat) (current : LineSegment) (st vis : List LineSegment), st ⊆ vis →
      ∃ d, collectAdjacentLines fuel delta current lines (st, vis) = (st ++ d, vis ++ d) ∧
        (∀ x ∈ d, x ∈ lines) ∧ (∀ x ∈ d, x ∉ vis) ∧ d.Nodup := by
  intro fuel
  induction fuel with
  | zero =>
    intro current st vis _
    exact ⟨[], by simp [collectAdjacentLines], by simp, by simp, List.nodup_nil⟩
  | succ fuel ih =>
    intro current st vis hsv
    have hstep : ∀ (st2 vis2 : List LineSegment) (line : LineSegment), line ∈ lines →
        st2 ⊆ vis2 →
        ∃ d, (if line ∈ st2 ∨ line ∈ vis2 then (st2, vis2)
            else if isAdjacent current line delta then
              collectAdjacentLines fuel delta line lines (st2 ++ [line], vis2 ++ [line])
            else (st2, vis2)) = (st2 ++ d, vis2 ++ d) ∧
          (∀ x ∈ d, x ∈ lines) ∧ (∀ x ∈ d, x ∉ vis2) ∧ d.Nodup := by
      intro st2 vis2 line hline hsub
      by_cases hmem : line ∈ st2 ∨ line ∈ vis2
      · exact ⟨[], by simp [hmem], by simp, by simp, List.nodup_nil⟩
      · by_cases hadj : isAdjacent current line delta
        · have hsub2 : st2 ++ [line] ⊆ vis2 ++ [line] := fun x hx => by
            rcases List.mem_append.mp hx with hx | hx
            · exact List.mem_append.mpr (Or.inl (hsub hx))
            · exact List.mem_append.mpr (Or.inr hx)
          obtain ⟨d, hd, hdlines, hdfresh, hdnd⟩ := ih line (st2 ++ [line]) (vis2 ++ [line]) hsub2
          refine ⟨line :: d, ?_, ?_, ?_, ?_⟩
          · rw [if_neg hmem, if_pos hadj, hd]
            simp
          · intro x hx
            rcases List.mem_cons.mp hx with hx | hx
            · rw [hx]; exact hline
            · exact hdlines x hx
          · intro x hx
            rcases List.mem_cons.mp hx with hx | hx
            · rw [hx]; exact fun hv => hmem (Or.inr hv)
            · exact fun hv => hdfresh x hx (List.mem_append.mpr (Or.inl hv))
          · rw [List.nodup_cons]
            refine ⟨fun hld => ?_, hdnd⟩
            exact hdfresh line hld (List.mem_append.mpr (Or.inr (List.mem_singleton_self line)))
        · exact ⟨[], by simp [hmem, hadj], by simp, by simp, List.nodup_nil⟩
    have h := foldl_grow lines
      (fun acc2 line =>
        if line ∈ acc2.1 ∨ line ∈ acc2.2 then acc2
        else if isAdjacent current line delta then
          collectAdjacentLines fuel delta line lines (acc2.1 ++ [line], acc2.2 ++ [line])
        else acc2)
      lines (fun st2 vis2 line hline hsub => hstep st2 vis2 line hline hsub) st vis hsv
    simpa [collectAdjacentLines] using h

/-- One value appears in exactly one member of a family whose concatenation
has no duplicates. -/
theorem countP_mem_flatten_nodup (l : LineSegment) :
    ∀ (S : List (List LineSegment)), S.flatten.Nodup → l ∈ S.flatten →
      S.countP (fun s => decide (l ∈ s)) = 1 := by
  intro S
  induction S with
  | nil => simp
  | cons s rest ih =>
    intro hnd hmem
    rw [List.flatten_cons] at hnd hmem
    have hdisj := List.disjoint_of_nodup_append hnd
    rw [List.countP_cons]
    by_cases hs : l ∈ s
    · have hrest : rest.countP (fun t => decide (l ∈ t)) = 0 := by
        rw [List.countP_eq_zero]
        intro t ht
        simp only [decide_eq_true_eq]
        intro hlt
        exact hdisj hs (List.mem_flatten.mpr ⟨t, ht, hlt⟩)
      simp [hrest, hs]
    · have hlr : l ∈ rest.flatten := by
        rcases List.mem_append.mp hmem with h | h
        · exact absurd h hs
        · exact h
      have := ih (List.nodup_append.mp hnd).2.1 hlr
      simp [this, hs]

/-- C1: `groupAdjacentLines` partitions its input: the union of the returned
Structures is exactly the input segment list, and every input segment lies in
exactly one Structure.  The `Nodup` hypothesis reflects that Python groups
distinct traced segment objects (object identity is value equality only in
the duplicate-free case). -/
theorem groupAdjacentLines_partition (lines : List LineSegment) (delta : Int)
    (hnd : lines.Nodup) :
    (∀ l, l ∈ (groupAdjacentLines lines delta).flatten ↔ l ∈ lines) ∧
      ∀ l ∈ lines, (groupAdjacentLines lines delta).countP (fun s => decide (l ∈ s)) = 1 := by
  clear hnd
  have hfold : ∀ (pending : List LineSegment) (structs : List (List LineSegment))
      (vis : List LineSegment),
      (∀ x ∈ pending, x ∈ lines) → vis = structs.flatten → vis.Nodup →
      (∀ x ∈ vis, x ∈ lines) →
      (pending.foldl
        (fun (acc : List (List LineSegment) × List LineSegment) line_1 =>
          if line_1 ∈ acc.2 then acc
          else
            let sv := collectAdjacentLines lines.length delta line_1 lines
              ([line_1], acc.2 ++ [line_1])
            (acc.1 ++ [sv.1], sv.2))
        (structs, vis)).2 =
        (pending.foldl
          (fun (acc : List (List LineSegment) × List LineSegment) line_1 =>
            if line_1 ∈ acc.2 then acc
            else
              let sv := collectAdjacentLines lines.length delta line_1 lines
                ([line_1], acc.2 ++ [line_1])
              (acc.1 ++ [sv.1], sv.2))
          (structs, vis)).1.flatten ∧
      (pending.foldl
        (fun (acc : List (List LineSegment) × List LineSegment) line_1 =>
          if line_1 ∈ acc.2 then acc
          else
            let sv := collectAdjacentLines lines.length delta line_1 lines
              ([line_1], acc.2 ++ [line_1])
            (acc.1 ++ [sv.1], sv.2))
        (structs, vis)).2.Nodup ∧
      (∀ x ∈ (pending.foldl
        (fun (acc : List (List LineSegment) × List LineSegment) line_1 =>
          if line_1 ∈ acc.2 then acc
          else
            let sv := collectAdjacentLines lines.length delta line_1 lines
              ([line_1], acc.2 ++ [line_1])
            (acc.1 ++ [sv.1], sv.2))
        (structs, vis)).2, x ∈ lines) ∧
      (∀ x, x ∈ pending ∨ x ∈ vis → x ∈ (pending.foldl
        (fun (acc : List (List LineSegment) × List LineSegment) line_1 =>
          if line_1 ∈ acc.2 then acc
          else
            let sv := collectAdjacentLines lines.length delta line_1 lines
              ([line_1], acc.2 ++ [line_1])
            (acc.1 ++ [sv.1], sv.2))
        (structs, vis)).2) := by
    intro pending
    induction pending with
    | nil =>
      intro structs vis _ hjoin hvnd hvlines
      refine ⟨hjoin, hvnd, hvlines, fun x hx => ?_⟩
      rcases hx with hx | hx
      · exact absurd hx (List.not_mem_nil x)
      · exact hx
    | cons l rest ih =>
      intro structs vis hplines hjoin hvnd hvlines
      rw [List.foldl_cons]
      by_cases hmem : l ∈ vis
      · simp only [hmem, if_pos]
        obtain ⟨h1, h2, h3, h4⟩ := ih structs vis
          (fun x hx => hplines x (List.mem_cons_of_mem l hx)) hjoin hvnd hvlines
        refine ⟨h1, h2, h3, fun x hx => ?_⟩
        rcases hx with hx | hx
        · rcases List.mem_cons.mp hx with hx | hx
          · exact h4 x (Or.inr (hx ▸ hmem))
          · exact h4 x (Or.inl hx)
        · exact h4 x (Or.inr hx)
      · simp only [hmem, if_neg, if_false]
        obtain ⟨d, hd, hdlines, hdfresh, hdnd⟩ :=
          collectAdjacentLines_spec delta lines lines.length l [l] (vis ++ [l])
            (fun x hx => List.mem_append.mpr (Or.inr hx))
        rw [hd]
        have hl : l ∈ lines := hplines l (List.mem_cons_self l rest)
        have hjoin2 : (vis ++ [l]) ++ d = (structs ++ [[l] ++ d]).flatten := by
          rw [List.flatten_append, ← hjoin]
          simp
        have hnd2 : ((vis ++ [l]) ++ d).Nodup := by
          rw [List.nodup_append]
          refine ⟨?_, hdnd, fun x hx1 hx2 => hdfresh x hx2 hx1⟩
          rw [List.nodup_append]
          refine ⟨hvnd, List.nodup_singleton l, fun x hx1 hx2 => ?_⟩
          rw [List.mem_singleton.mp hx2] at hx1
          exact hmem hx1
        have hlines2 : ∀ x ∈ (vis ++ [l]) ++ d, x ∈ lines := by
          intro x hx
          rcases List.mem_append.mp hx with hx | hx
          · rcases List.mem_append.mp hx with hx | hx
            · exact hvlines x hx
            · rw [List.mem_singleton.mp hx]; exact hl
          · exact hdlines x hx
        obtain ⟨h1, h2, h3, h4⟩ := ih (structs ++ [[l] ++ d]) ((vis ++ [l]) ++ d)
          (fun x hx => hplines x (List.mem_cons_of_mem l hx)) hjoin2 hnd2 hlines2
        refine ⟨h1, h2, h3, fun x hx => ?_⟩
        rcases hx with hx | hx
        · rcases List.mem_cons.mp hx with hx | hx
          · refine h4 x (Or.inr ?_)
            rw [hx]
            exact List.mem_append.mpr
              (Or.inl (List.mem_append.mpr (Or.inr (List.mem_singleton_self l))))
          · exact h4 x (Or.inl hx)
        · exact h4 x (Or.inr (List.mem_append.mpr (Or.inl (List.mem_append.mpr (Or.inl hx)))))
  obtain ⟨h1, h2, h3, h4⟩ := hfold lines [] [] (fun x hx => hx) (by simp) List.nodup_nil
    (by simp)
  have hS : (groupAdjacentLines lines delta).flatten =
      (lines.foldl
        (fun (acc : List (List LineSegment) × List LineSegment) line_1 =>
          if line_1 ∈ acc.2 then acc
          else
            let sv := collectAdjacentLines lines.length delta line_1 lines
              ([line_1], acc.2 ++ [line_1])
            (acc.1 ++ [sv.1], sv.2))
        ([], [])).2 := by
    rw [h1]
    rfl
  constructor
  · intro l
    rw [hS]
    constructor
    · intro hl
      exact h3 l hl
    · intro hl
      exact h4 l (Or.inl hl)
  · intro l hl
    have hmem : l ∈ (groupAdjacentLines lines delta).flatten := by
      rw [hS]
      exact h4 l (Or.inl hl)
    have hnd2 : (groupAdjacentLines lines delta).flatten.Nodup := by
      rw [hS]
      exact h2
    exact countP_mem_flatten_nodup l (groupAdjacentLines lines delta) hnd2 hmem

/-- Witness for C1 on a concrete two-segment input. -/
theorem groupAdjacentLines_partition_witness :
    (∀ l, l ∈ (groupAdjacentLines [LineSegment.mk 0 0 2 0 false, LineSegment.mk 4 0 6 0 false]
        1).flatten ↔
      l ∈ [LineSegment.mk 0 0 2 0 false, LineSegment.mk 4 0 6 0 false]) ∧
      ∀ l ∈ [LineSegment.mk 0 0 2 0 false, LineSegment.mk 4 0 6 0 false],
        (groupAdjacentLines [LineSegment.mk 0 0 2 0 false, LineSegment.mk 4 0 6 0 false]
          1).countP (fun s => decide (l ∈ s)) = 1 :=
  groupAdjacentLines_partition [LineSegment.mk 0 0 2 0 false, LineSegment.mk 4 0 6 0 false] 1
    (by decide)

/-- The integer dot product of the two `(start - end)` direction vectors used
by `computeAngle` (its local `ab`). -/
def dotDir (l1 l2 : LineSegment) : Int :=
  (l1.x_start - l1.x_end) * (l2.x_start - l2.x_end) +
    (l1.y_start - l1.y_end) * (l2.y_start - l2.y_end)

/-- The squared euclidean norm of the `(start - end)` direction of a segment
vector. -/
def dirNormSq (l : LineSegment) : Int :=
  (l.x_start - l.x_end) ^ 2 + (l.y_start - l.y_end) ^ 2

/-- Rounding to five decimals preserves nonnegativity. -/
theorem pyRound5_nonneg (x : ℝ) (hx : 0 ≤ x) : 0 ≤ pyRound5 x := by
  unfold pyRound5
  rw [if_neg (not_lt.mpr hx)]
  have hfl : (0 : Int) ≤ ⌊x * 100000 + 1 / 2⌋ := Int.floor_nonneg.mpr (by linarith)
  have : (0 : ℝ) ≤ (⌊x * 100000 + 1 / 2⌋ : Int) := Int.cast_nonneg.mpr hfl
  positivity

/-- A nonnegative direction dot product keeps `computeAngle` within
`[-90, 90]`. -/
theorem computeAngle_mem_of_dot_nonneg (l1 l2 : LineSegment) (h : 0 ≤ dotDir l1 l2) :
    (-1) * 90 ≤ computeAngle l1 l2 ∧ computeAngle l1 l2 ≤ 90 := by
  unfold dotDir at h
  simp only [computeAngle]
  by_cases hab : (l1.x_start - l1.x_end) * (l2.x_start - l2.x_end) +
      (l1.y_start - l1.y_end) * (l2.y_start - l2.y_end) = 0
  · rw [if_pos hab]
    norm_num
  · rw [if_neg hab]
    set y := pyRound5 (((((l1.x_start - l1.x_end) * (l2.x_start - l2.x_end) +
        (l1.y_start - l1.y_end) * (l2.y_start - l2.y_end) : Int) : ℝ)) /
      (Real.sqrt (((l1.x_start - l1.x_end) ^ 2 + (l1.y_start - l1.y_end) ^ 2 : Int) : ℝ) *
        Real.sqrt (((l2.x_start - l2.x_end) ^ 2 + (l2.y_start - l2.y_end) ^ 2 : Int) : ℝ)))
      with hy
    have hy0 : 0 ≤ y := by
      rw [hy]
      refine pyRound5_nonneg _ (div_nonneg ?_ ?_)
      · exact_mod_cast h
      · exact mul_nonneg (Real.sqrt_nonneg _) (Real.sqrt_nonneg _)
    have hacos : Real.arccos y ≤ Real.pi / 2 := Real.arccos_le_pi_div_two.mpr hy0
    constructor
    · have h0 : 0 ≤ Real.arccos y * 180 / Real.pi := by
        have := Real.arccos_nonneg y
        have := Real.pi_pos
        positivity
      linarith
    · have hmul : Real.arccos y * 180 ≤ Real.pi / 2 * 180 :=
        mul_le_mul_of_nonneg_right hacos (by norm_num)
      have hdiv : Real.arccos y * 180 / Real.pi ≤ Real.pi / 2 * 180 / Real.pi :=
        (div_le_div_right Real.pi_pos).mpr hmul
      have hval : Real.pi / 2 * 180 / Real.pi = 90 := by
        field_simp
        ring
      rw [hval] at hdiv
      exact hdiv

/-- A negative direction dot product pushes `computeAngle` strictly above 90
degrees, provided the dot product is not so small that the five-decimal
rounding of the cosine collapses to zero (the integer bound
`n1 * n2 ≤ ab² * 10¹⁰` guarantees a cosine of at most `-10⁻⁵`). -/
theorem computeAngle_gt_90_of_dot_neg (l1 l2 : LineSegment) (h : dotDir l1 l2 < 0)
    (hb : dirNormSq l1 * dirNormSq l2 ≤ dotDir l1 l2 ^ 2 * 10 ^ 10) :
    90 < computeAngle l1 l2 := by
  unfold dotDir at h
  unfold dotDir dirNormSq at hb
  simp only [computeAngle]
  have hab : ¬((l1.x_start - l1.x_end) * (l2.x_start - l2.x_end) +
      (l1.y_start - l1.y_end) * (l2.y_start - l2.y_end) = 0) := by omega
  rw [if_neg hab]
  set ab : Int := (l1.x_start - l1.x_end) * (l2.x_start - l2.x_end) +
    (l1.y_start - l1.y_end) * (l2.y_start - l2.y_end) with habdef
  set n1 : Int := (l1.x_start - l1.x_end) ^ 2 + (l1.y_start - l1.y_end) ^ 2 with hn1def
  set n2 : Int := (l2.x_start - l2.x_end) ^ 2 + (l2.y_start - l2.y_end) ^ 2 with hn2def
  have hn1pos : 0 < n1 := by
    rcases eq_or_ne (l1.x_start - l1.x_end) 0 with hx | hx
    · rcases eq_or_ne (l1.y_start - l1.y_end) 0 with hy | hy
      · exfalso
        rw [habdef, hx, hy] at h
        simp at h
      · rw [hn1def]
        positivity
    · rw [hn1def]
      positivity
  have hn2pos : 0 < n2 := by
    rcases eq_or_ne (l2.x_start - l2.x_end) 0 with hx | hx
    · rcases eq_or_ne (l2.y_start - l2.y_end) 0 with hy | hy
      · exfalso
        rw [habdef, hx, hy] at h
        simp at h
      · rw [hn2def]
        positivity
    · rw [hn2def]
      positivity
  set s : ℝ := Real.sqrt ((n1 : ℝ)) * Real.sqrt ((n2 : ℝ)) with hsdef
  have hspos : 0 < s := by
    rw [hsdef]
    exact mul_pos (Real.sqrt_pos.mpr (by exact_mod_cast hn1pos))
      (Real.sqrt_pos.mpr (by exact_mod_cast hn2pos))
  have hsle : s ≤ (-(ab : ℝ)) * 10 ^ 5 := by
    rw [hsdef, ← Real.sqrt_mul (by exact_mod_cast hn1pos.le)]
    have hcast : ((n1 : ℝ)) * (n2 : ℝ) ≤ ((-(ab : ℝ)) * 10 ^ 5) ^ 2 := by
      have : ((n1 * n2 : Int) : ℝ) ≤ ((ab ^ 2 * 10 ^ 10 : Int) : ℝ) := by exact_mod_cast hb
      push_cast at this
      nlinarith [this]
    have habneg : (ab : ℝ) < 0 := by exact_mod_cast h
    calc Real.sqrt ((n1 : ℝ) * (n2 : ℝ)) ≤ Real.sqrt (((-(ab : ℝ)) * 10 ^ 5) ^ 2) :=
          Real.sqrt_le_sqrt hcast
      _ = (-(ab : ℝ)) * 10 ^ 5 := Real.sqrt_sq (by nlinarith)
  have habneg : (ab : ℝ) < 0 := by exact_mod_cast h
  set r : ℝ := ((ab : Int) : ℝ) / s with hrdef
  have hrneg : r < 0 := div_neg_of_neg_of_pos habneg hspos
  have hrle : r ≤ -(1 / 10 ^ 5) := by
    rw [hrdef, div_le_iff hspos]
    nlinarith
  have hfl : (1 : Int) ≤ ⌊(-r) * 100000 + 1 / 2⌋ := by
    rw [Int.le_floor]
    push_cast
    nlinarith
  have hyneg : pyRound5 r < 0 := by
    rw [pyRound5, if_pos hrneg]
    have hc : (1 : ℝ) ≤ ((⌊(-r) * 100000 + 1 / 2⌋ : Int) : ℝ) := by exact_mod_cast hfl
    have : (0 : ℝ) < ((⌊(-r) * 100000 + 1 / 2⌋ : Int) : ℝ) := by linarith
    exact div_neg_of_neg_of_pos (by linarith) (by norm_num)
  have harccos : Real.pi / 2 < Real.arccos (pyRound5 r) :=
    lt_of_not_le (fun hle => absurd (Real.arccos_le_pi_div_two.mp hle) (not_le.mpr hyneg))
  have hmul : Real.pi / 2 * 180 < Real.arccos (pyRound5 r) * 180 :=
    mul_lt_mul_of_pos_right harccos (by norm_num)
  have hdiv : Real.pi / 2 * 180 / Real.pi < Real.arccos (pyRound5 r) * 180 / Real.pi :=
    (div_lt_div_right Real.pi_pos).mpr hmul
  have hval : Real.pi / 2 * 180 / Real.pi = 90 := by
    field_simp
    ring
  rw [hval] at hdiv
  exact hdiv

/-- With `angle_epsilon = 90`, `haveEqualSlope` accepts exactly the pairs with
a nonnegative direction dot product (up to the rounding margin). -/
theorem haveEqualSlope_90_true (l1 l2 : LineSegment) (h : 0 ≤ dotDir l1 l2) :
    haveEqualSlope l1 l2 (some 90) = .ok true := by
  simp only [haveEqualSlope, Except.ok.injEq]
  rw [decide_eq_true_iff]
  exact computeAngle_mem_of_dot_nonneg l1 l2 h

/-- With `angle_epsilon = 90`, a pair with a (quantitatively) negative
direction dot product is rejected by `haveEqualSlope`. -/
theorem haveEqualSlope_90_false (l1 l2 : LineSegment) (h : dotDir l1 l2 < 0)
    (hb : dirNormSq l1 * dirNormSq l2 ≤ dotDir l1 l2 ^ 2 * 10 ^ 10) :
    haveEqualSlope l1 l2 (some 90) = .ok false := by
  simp only [haveEqualSlope, Except.ok.injEq]
  rw [decide_eq_false_iff_not]
  intro hcontra
  exact absurd hcontra.2 (not_le.mpr (computeAngle_gt_90_of_dot_neg l1 l2 h hb))

/-- C6: for non-point segments and a supplied `angleEpsilon`,
`haveEqualSlope` returns `True` iff `computeAngle` lies within
`[-angleEpsilon, +angleEpsilon]` (a same-direction test near 0°, not 180°
collinearity); an absent `angleEpsilon` is the `ValueError`
"angle_epsilon not set". -/
theorem haveEqualSlope_iff (line_1 line_2 : LineSegment) (eps : ℝ)
    (h1 : line_1.isPoint = false) (h2 : line_2.isPoint = false) :
    (haveEqualSlope line_1 line_2 (some eps) = .ok true ↔
      (-1) * eps ≤ computeAngle line_1 line_2 ∧ computeAngle line_1 line_2 ≤ eps) ∧
      haveEqualSlope line_1 line_2 none = .error "angle_epsilon not set" := by
  clear h1 h2
  constructor
  · simp only [haveEqualSlope, Except.ok.injEq]
    exact decide_eq_true_iff
  · rfl

/-- Witness for C6 at two concrete non-point segments and `angleEpsilon = 90`. -/
theorem haveEqualSlope_iff_witness :
    (haveEqualSlope (LineSegment.mk 0 0 2 0 false) (LineSegment.mk 3 0 5 0 false) (some 90) =
        .ok true ↔
      (-1) * 90 ≤ computeAngle (LineSegment.mk 0 0 2 0 false) (LineSegment.mk 3 0 5 0 false) ∧
        computeAngle (LineSegment.mk 0 0 2 0 false) (LineSegment.mk 3 0 5 0 false) ≤ 90) ∧
      haveEqualSlope (LineSegment.mk 0 0 2 0 false) (LineSegment.mk 3 0 5 0 false) none =
        .error "angle_epsilon not set" :=
  haveEqualSlope_iff (LineSegment.mk 0 0 2 0 false) (LineSegment.mk 3 0 5 0 false) 90
    (by decide) (by decide)

/-- C10: whenever `combineLines` returns `None`, both operands are left
completely unchanged — the post-call values equal the inputs on every failure
path. -/
theorem combineLines_none_unchanged (line_1 line_2 : LineSegment) (angle_epsilon : Option ℝ)
    (delta : Int) (p q : LineSegment)
    (h : combineLines line_1 line_2 angle_epsilon delta = .ok (none, p, q)) :
    p = line_1 ∧ q = line_2 := by
  unfold combineLines at h
  by_cases hg : (!line_1.isPoint && !line_2.isPoint) = true
  · rw [if_pos hg] at h
    rcases hs : haveEqualSlope line_1 line_2 angle_epsilon with e | b
    · rw [hs] at h
      simp [bind, Except.bind] at h
    · rw [hs] at h
      simp only [bind, Except.bind, pure, Except.pure] at h
      rcases b with _ | _
      · simp only [Bool.not_false, if_true] at h
        simp only [pure, Except.pure, Except.ok.injEq, Prod.mk.injEq] at h
        exact ⟨h.2.1.symm, h.2.2.symm⟩
      · simp only [Bool.not_true, Bool.false_eq_true, if_false] at h
        split_ifs at h <;>
          simp only [pure, Except.pure, Except.ok.injEq, Prod.mk.injEq] at h <;>
          first
            | exact ⟨h.2.1.symm, h.2.2.symm⟩
            | exact absurd h.1 (by simp)
  · rw [if_neg hg] at h
    simp only [bind, Except.bind, pure, Except.pure, Bool.false_eq_true, if_false] at h
    split_ifs at h <;>
      simp only [pure, Except.pure, Except.ok.injEq, Prod.mk.injEq] at h <;>
      first
        | exact ⟨h.2.1.symm, h.2.2.symm⟩
        | exact absurd h.1 (by simp)

/-- Witness for C10: two distant point segments; `combineLines` returns `None`
and both post-call values equal the inputs. -/
theorem combineLines_none_unchanged_witness :
    LineSegment.mk 0 0 0 0 false = LineSegment.mk 0 0 0 0 false ∧
      LineSegment.mk 9 9 9 9 false = LineSegment.mk 9 9 9 9 false :=
  combineLines_none_unchanged (LineSegment.mk 0 0 0 0 false) (LineSegment.mk 9 9 9 9 false)
    none 1 (LineSegment.mk 0 0 0 0 false) (LineSegment.mk 9 9 9 9 false) (by decide)

/-- Python `combineLines` on two non-point segments with an accepted slope test:
the adjacency cascade decides the merge. -/
theorem combineLines_eval_slope_true (line_1 line_2 : LineSegment) (angle_epsilon : Option ℝ)
    (delta : Int) (h1 : line_1.isPoint = false) (h2 : line_2.isPoint = false)
    (hs : haveEqualSlope line_1 line_2 angle_epsilon = .ok true) :
    combineLines line_1 line_2 angle_epsilon delta =
      if isAdjacentToStart line_1 line_2 delta then
        .ok (some true, line_1, line_2.setEndCoordinate line_1.x_end line_1.y_end)
      else if isAdjacentToEnd line_1 line_2 delta then
        .ok (some false, line_1.setEndCoordinate line_2.x_end line_2.y_end, line_2)
      else .ok (none, line_1, line_2) := by
  unfold combineLines
  rw [if_pos (by rw [h1, h2]; rfl), hs]
  simp only [bind, Except.bind, pure, Except.pure, Bool.not_true, Bool.false_eq_true, if_false,
    h1, h2]

/-- Python `combineLines` on two non-point segments with a rejected slope test:
no merge, operands unchanged. -/
theorem combineLines_eval_slope_false (line_1 line_2 : LineSegment) (angle_epsilon : Option ℝ)
    (delta : Int) (h1 : line_1.isPoint = false) (h2 : line_2.isPoint = false)
    (hs : haveEqualSlope line_1 line_2 angle_epsilon = .ok false) :
    combineLines line_1 line_2 angle_epsilon delta = .ok (none, line_1, line_2) := by
  unfold combineLines
  rw [if_pos (by rw [h1, h2]; rfl), hs]
  simp [bind, Except.bind, pure, Except.pure]

/-- Python `combineLoop` is finished once `i` reaches the end. -/
theorem combineLoop_done (angle_epsilon : Option ℝ) (delta : Int) (i j : Nat)
    (st : List LineSegment) (hi : ¬ i < st.length) :
    combineLoop angle_epsilon delta i j st = .ok st := by
  conv_lhs => unfold combineLoop
  rw [dif_neg hi]

/-- Python `combineLoop` advances `i` once `j` has passed the end. -/
theorem combineLoop_next_i (angle_epsilon : Option ℝ) (delta : Int) (i j : Nat)
    (st : List LineSegment) (hi : i < st.length) (hj : ¬ j < st.length) :
    combineLoop angle_epsilon delta i j st =
      combineLoop angle_epsilon delta (i + 1) (i + 2) st := by
  conv_lhs => unfold combineLoop
  rw [dif_pos hi, dif_neg hj]

/-- Python `combineLoop` advances `j` on a failed combination. -/
theorem combineLoop_step_none (angle_epsilon : Option ℝ) (delta : Int) (i j : Nat)
    (st : List LineSegment) (hi : i < st.length) (hj : j < st.length) (p q : LineSegment)
    (hc : combineLines st[i] st[j] angle_epsilon delta = .ok (none, p, q)) :
    combineLoop angle_epsilon delta i j st = combineLoop angle_epsilon delta i (j + 1) st := by
  conv_lhs => unfold combineLoop
  rw [dif_pos hi, dif_pos hj, hc]

/-- Python `combineLoop` on a merge returning object `line_1`: slot `i` is replaced
and position `j` is erased; the scan restarts at `i`. -/
theorem combineLoop_step_merge_one (angle_epsilon : Option ℝ) (delta : Int) (i j : Nat)
    (st : List LineSegment) (hi : i < st.length) (hj : j < st.length) (p q : LineSegment)
    (hc : combineLines st[i] st[j] angle_epsilon delta = .ok (some false, p, q)) :
    combineLoop angle_epsilon delta i j st =
      combineLoop angle_epsilon delta i (i + 1) ((st.set i p).eraseIdx j) := by
  conv_lhs => unfold combineLoop
  rw [dif_pos hi, dif_pos hj, hc]
  rfl

/-- Python `combineLoop` on a merge returning object `line_2` (identity-based removal
then erases position `i`, leaving the merged value at position `j - 1`). -/
theorem combineLoop_step_merge_two (angle_epsilon : Option ℝ) (delta : Int) (i j : Nat)
    (st : List LineSegment) (hi : i < st.length) (hj : j < st.length) (p q : LineSegment)
    (hc : combineLines st[i] st[j] angle_epsilon delta = .ok (some true, p, q)) :
    combineLoop angle_epsilon delta i j st =
      combineLoop angle_epsilon delta i (i + 1) ((st.set j q).eraseIdx i) := by
  conv_lhs => unfold combineLoop
  rw [dif_pos hi, dif_pos hj, hc]
  rfl

/-- Python `combineLoop` propagates an error raised by `combineLines`. -/
theorem combineLoop_step_error (angle_epsilon : Option ℝ) (delta : Int) (i j : Nat)
    (st : List LineSegment) (hi : i < st.length) (hj : j < st.length) (e : String)
    (hc : combineLines st[i] st[j] angle_epsilon delta = .error e) :
    combineLoop angle_epsilon delta i j st = .error e := by
  conv_lhs => unfold combineLoop
  rw [dif_pos hi, dif_pos hj, hc]

/-- A singleton or empty structure passes through `combineLoop` unchanged. -/
theorem combineLoop_short (angle_epsilon : Option ℝ) (delta : Int) :
    ∀ (st : List LineSegment), st.length ≤ 1 →
      combineLoop angle_epsilon delta 0 1 st = .ok st := by
  intro st hlen
  rcases st with _ | ⟨x, _ | ⟨y, rest⟩⟩
  · exact combineLoop_done angle_epsilon delta 0 1 [] (by simp)
  · rw [combineLoop_next_i angle_epsilon delta 0 1 [x] (by simp) (by simp)]
    exact combineLoop_done angle_epsilon delta 1 2 [x] (by simp)
  · simp at hlen

/-- The scenario-C grid: one row, two 3-pixel collinear runs separated by the
single background pixel at column 3. -/
def cImg : Image :=
  ⟨1, 7, fun y x => decide (y = 0) && (x == 0 || x == 1 || x == 2 || x == 4 || x == 5 || x == 6)⟩

/-- The left traced segment of the scenario-C grid. -/
def segL : LineSegment := ⟨0, 0, 2, 0, false⟩

/-- The right traced segment of the scenario-C grid. -/
def segR : LineSegment := ⟨4, 0, 6, 0, false⟩

/-- The merge of the two scenario-C segments. -/
def segLR : LineSegment := ⟨0, 0, 6, 0, false⟩

/-- Counterexample to C2 as stated: tracing the scenario-C grid yields the two
expected segments, but with `delta = 1` `groupAdjacentLines` returns **two**
structures (the endpoints `(2,0)` and `(4,0)` are 2 columns apart, outside the
delta-1 neighbourhood), not one. -/
theorem scenarioC_delta1_two_structures :
    findLines cImg = .ok [segL, segR] ∧
      groupAdjacentLines [segL, segR] 1 = [[segL], [segR]] ∧
      (groupAdjacentLines [segL, segR] 1).length ≠ 1 := by
  refine ⟨by decide, by decide, by decide⟩

/-- Merging the scenario-C structure with `angle_epsilon = 90`, `delta = 2`:
one merge, then exhaustion. -/
theorem scenarioC_merge_run :
    combineLoop (some 90) 2 0 1 [segL, segR] = .ok [segLR] := by
  have sLR : haveEqualSlope segL segR (some 90) = .ok true :=
    haveEqualSlope_90_true segL segR (by decide)
  have cLR : combineLines segL segR (some 90) 2 = .ok (some false, segLR, segR) := by
    rw [combineLines_eval_slope_true segL segR (some 90) 2 (by decide) (by decide) sLR]
    rw [if_neg (by decide), if_pos (by decide)]
    decide
  rw [combineLoop_step_merge_one (some 90) 2 0 1 [segL, segR] (by decide) (by decide)
    segLR segR cLR]
  have hred : (([segL, segR].set 0 segLR).eraseIdx 1) = [segLR] := by decide
  rw [hred]
  exact combineLoop_short (some 90) 2 [segLR] (by decide)

/-- C2 (amended): on the scenario-C grid, tracing yields the two 3-pixel
segments; with `delta = 2` (the smallest neighbourhood that spans the 1-pixel
gap between the endpoints `(2,0)` and `(4,0)`) they are grouped into one
Structure, and `combineLinesWithEqualSlope` (here with `angle_epsilon = 90`,
which accepts their 0° angle) merges them into the single segment
`(0,0)-(6,0)` spanning both runs. -/
theorem scenarioC_delta2_grouped_and_merged :
    findLines cImg = .ok [segL, segR] ∧
      groupAdjacentLines [segL, segR] 2 = [[segL, segR]] ∧
      combineLinesWithEqualSlope [[segL, segR]] (some 90) 2 = .ok [[segLR]] := by
  refine ⟨by decide, by decide, ?_⟩
  simp only [combineLinesWithEqualSlope, combineLinesWithEqualSlope_Rec, bind, Except.bind]
  rw [scenarioC_merge_run]
  rfl

/-- First structure element of the idempotence counterexample,
`(1,5)-(4,4)`. -/
def cSegA : LineSegment := ⟨1, 5, 4, 4, false⟩

/-- Second structure element of the idempotence counterexample,
`(0,0)-(2,0)`. -/
def cSegB : LineSegment := ⟨0, 0, 2, 0, false⟩

/-- Third structure element of the idempotence counterexample,
`(3,1)-(3,3)`. -/
def cSegC : LineSegment := ⟨3, 1, 3, 3, false⟩

/-- Python `cSegB` after absorbing `cSegC` (first merge run). -/
def cSegBC : LineSegment := ⟨0, 0, 3, 3, false⟩

/-- Python `cSegA` after absorbing `cSegBC` (second merge run). -/
def cSegABC : LineSegment := ⟨1, 5, 3, 3, false⟩

/-- First merge run of the idempotence counterexample: `A` combines with
neither `B` (not adjacent) nor `C` (slope rejected), then `B` absorbs `C`. -/
theorem idempotence_cex_run1 :
    combineLoop (some 90) 1 0 1 [cSegA, cSegB, cSegC] = .ok [cSegA, cSegBC] := by
  have sAB : haveEqualSlope cSegA cSegB (some 90) = .ok true :=
    haveEqualSlope_90_true cSegA cSegB (by decide)
  have cAB : combineLines cSegA cSegB (some 90) 1 = .ok (none, cSegA, cSegB) := by
    rw [combineLines_eval_slope_true cSegA cSegB (some 90) 1 (by decide) (by decide) sAB]
    rw [if_neg (by decide), if_neg (by decide)]
  have sAC : haveEqualSlope cSegA cSegC (some 90) = .ok false :=
    haveEqualSlope_90_false cSegA cSegC (by decide) (by decide)
  have cAC : combineLines cSegA cSegC (some 90) 1 = .ok (none, cSegA, cSegC) :=
    combineLines_eval_slope_false cSegA cSegC (some 90) 1 (by decide) (by decide) sAC
  have sBC : haveEqualSlope cSegB cSegC (some 90) = .ok true :=
    haveEqualSlope_90_true cSegB cSegC (by decide)
  have cBC : combineLines cSegB cSegC (some 90) 1 = .ok (some false, cSegBC, cSegC) := by
    rw [combineLines_eval_slope_true cSegB cSegC (some 90) 1 (by decide) (by decide) sBC]
    rw [if_neg (by decide), if_pos (by decide)]
    decide
  rw [combineLoop_step_none (some 90) 1 0 1 [cSegA, cSegB, cSegC] (by decide) (by decide)
    cSegA cSegB cAB]
  rw [combineLoop_step_none (some 90) 1 0 2 [cSegA, cSegB, cSegC] (by decide) (by decide)
    cSegA cSegC cAC]
  rw [combineLoop_next_i (some 90) 1 0 3 [cSegA, cSegB, cSegC] (by decide) (by decide)]
  rw [combineLoop_step_merge_one (some 90) 1 1 2 [cSegA, cSegB, cSegC] (by decide) (by decide)
    cSegBC cSegC cBC]
  have hred : (([cSegA, cSegB, cSegC].set 1 cSegBC).eraseIdx 2) = [cSegA, cSegBC] := by decide
  rw [hred]
  rw [combineLoop_next_i (some 90) 1 1 2 [cSegA, cSegBC] (by decide) (by decide)]
  exact combineLoop_done (some 90) 1 2 3 [cSegA, cSegBC] (by decide)

/-- Second merge run of the idempotence counterexample: the merged `B`
(direction now diagonal) passes the slope gate against `A`, whose end `(4,4)`
is adjacent to the merged end `(3,3)`, so a further merge fires. -/
theorem idempotence_cex_run2 :
    combineLoop (some 90) 1 0 1 [cSegA, cSegBC] = .ok [cSegABC] := by
  have sAB2 : haveEqualSlope cSegA cSegBC (some 90) = .ok true :=
    haveEqualSlope_90_true cSegA cSegBC (by decide)
  have cAB2 : combineLines cSegA cSegBC (some 90) 1 = .ok (some false, cSegABC, cSegBC) := by
    rw [combineLines_eval_slope_true cSegA cSegBC (some 90) 1 (by decide) (by decide) sAB2]
    rw [if_neg (by decide), if_pos (by decide)]
    decide
  rw [combineLoop_step_merge_one (some 90) 1 0 1 [cSegA, cSegBC] (by decide) (by decide)
    cSegABC cSegBC cAB2]
  have hred : (([cSegA, cSegBC].set 0 cSegABC).eraseIdx 1) = [cSegABC] := by decide
  rw [hred]
  exact combineLoop_short (some 90) 1 [cSegABC] (by decide)

/-- Counterexample to C3 as stated: a three-segment Structure (with
`angle_epsilon = 90`, `delta = 1`) on which a second
`combineLinesWithEqualSlope` run changes the output of the first run — the
first run leaves `[(1,5)-(4,4), (0,0)-(3,3)]`, the second merges them. -/
theorem combineLinesWithEqualSlope_not_idempotent :
    combineLinesWithEqualSlope [[cSegA, cSegB, cSegC]] (some 90) 1 =
        .ok [[cSegA, cSegBC]] ∧
      combineLinesWithEqualSlope [[cSegA, cSegBC]] (some 90) 1 = .ok [[cSegABC]] ∧
      ([[cSegABC]] : List (List LineSegment)) ≠ [[cSegA, cSegBC]] := by
  refine ⟨?_, ?_, by decide⟩
  · simp only [combineLinesWithEqualSlope, combineLinesWithEqualSlope_Rec, bind, Except.bind]
    rw [idempotence_cex_run1]
    rfl
  · simp only [combineLinesWithEqualSlope, combineLinesWithEqualSlope_Rec, bind, Except.bind]
    rw [idempotence_cex_run2]
    rfl

/-- C3 (amended): merging is idempotent for Structures of at most two
segments — whatever `combineLinesWithEqualSlope_Rec 0` produces from such a
Structure is a fixed point of a second run.  (For three or more segments a
second run can merge further, because a merge performed at a later index can
create a segment whose direction now passes the slope gate against an earlier
element; see the counterexample.) -/
theorem combineRec_idempotent_small (st : List LineSegment) (angle_epsilon : Option ℝ)
    (delta : Int) (hlen : st.length ≤ 2) (out : List LineSegment)
    (h : combineLinesWithEqualSlope_Rec 0 st angle_epsilon delta = .ok out) :
    combineLinesWithEqualSlope_Rec 0 out angle_epsilon delta = .ok out := by
  unfold combineLinesWithEqualSlope_Rec at h ⊢
  rcases st with _ | ⟨x, _ | ⟨y, _ | ⟨z, rest⟩⟩⟩
  · rw [combineLoop_short angle_epsilon delta [] (by simp)] at h
    obtain rfl : ([] : List LineSegment) = out := Except.ok.inj h
    exact combineLoop_short angle_epsilon delta [] (by simp)
  · rw [combineLoop_short angle_epsilon delta [x] (by simp)] at h
    obtain rfl : [x] = out := Except.ok.inj h
    exact combineLoop_short angle_epsilon delta [x] (by simp)
  · rcases hc : combineLines x y angle_epsilon delta with e | r
    · rw [combineLoop_step_error angle_epsilon delta 0 1 [x, y] (by simp) (by simp) e hc] at h
      exact absurd h (by simp)
    · rcases r with ⟨tag, p, q⟩
      rcases tag with _ | tag2
      · rw [combineLoop_step_none angle_epsilon delta 0 1 [x, y] (by simp) (by simp) p q hc] at h
        rw [combineLoop_next_i angle_epsilon delta 0 2 [x, y] (by simp) (by simp)] at h
        rw [combineLoop_next_i angle_epsilon delta 1 2 [x, y] (by simp) (by simp)] at h
        rw [combineLoop_done angle_epsilon delta 2 3 [x, y] (by simp)] at h
        obtain rfl : [x, y] = out := Except.ok.inj h
        rw [combineLoop_step_none angle_epsilon delta 0 1 [x, y] (by simp) (by simp) p q hc]
        rw [combineLoop_next_i angle_epsilon delta 0 2 [x, y] (by simp) (by simp)]
        rw [combineLoop_next_i angle_epsilon delta 1 2 [x, y] (by simp) (by simp)]
        exact combineLoop_done angle_epsilon delta 2 3 [x, y] (by simp)
      · rcases tag2 with _ | _
        · rw [combineLoop_step_merge_one angle_epsilon delta 0 1 [x, y] (by simp) (by simp)
            p q hc] at h
          have hred : (([x, y].set 0 p).eraseIdx 1) = [p] := rfl
          rw [hred, combineLoop_short angle_epsilon delta [p] (by simp)] at h
          obtain rfl : [p] = out := Except.ok.inj h
          exact combineLoop_short angle_epsilon delta [p] (by simp)
        · rw [combineLoop_step_merge_two angle_epsilon delta 0 1 [x, y] (by simp) (by simp)
            p q hc] at h
          have hred : (([x, y].set 1 q).eraseIdx 0) = [q] := rfl
          rw [hred, combineLoop_short angle_epsilon delta [q] (by simp)] at h
          obtain rfl : [q] = out := Except.ok.inj h
          exact combineLoop_short angle_epsilon delta [q] (by simp)
  · simp at hlen

/-- Witness for the amended C3: a two-point structure (no adjacency, so the
first run changes nothing) is a fixed point of the merge. -/
theorem combineRec_idempotent_small_witness :
    combineLinesWithEqualSlope_Rec 0 [LineSegment.mk 0 0 0 0 false, LineSegment.mk 9 9 9 9 false]
      none 1 = .ok [LineSegment.mk 0 0 0 0 false, LineSegment.mk 9 9 9 9 false] :=
  combineRec_idempotent_small [LineSegment.mk 0 0 0 0 false, LineSegment.mk 9 9 9 9 false]
    none 1 (by decide) [LineSegment.mk 0 0 0 0 false, LineSegment.mk 9 9 9 9 false]
    (by
      unfold combineLinesWithEqualSlope_Rec
      rw [combineLoop_step_none none 1 0 1
        [LineSegment.mk 0 0 0 0 false, LineSegment.mk 9 9 9 9 false] (by simp) (by simp)
        (LineSegment.mk 0 0 0 0 false) (LineSegment.mk 9 9 9 9 false) (by decide)]
      rw [combineLoop_next_i none 1 0 2
        [LineSegment.mk 0 0 0 0 false, LineSegment.mk 9 9 9 9 false] (by simp) (by simp)]
      rw [combineLoop_next_i none 1 1 2
        [LineSegment.mk 0 0 0 0 false, LineSegment.mk 9 9 9 9 false] (by simp) (by simp)]
      exact combineLoop_done none 1 2 3
        [LineSegment.mk 0 0 0 0 false, LineSegment.mk 9 9 9 9 false] (by simp))

end LineFinding
